import Mathlib

/-!
Verification development for the mwoffliner dumping tool (mwoffliner.js and
util.js).  JavaScript strings are modelled as `List Char` (one entry per code
point; for the surrogate-pair analysis of `charAt` a `List Nat` of UTF-16 code
units is used instead).  JavaScript numbers are modelled as exact rationals
with an explicit NaN; the operations exercised by the theorems below
(division by 1, comparison with 200, Nat arithmetic on widths and timeouts)
are exact in IEEE-754 as well, so the rational model is faithful where it is
used.  Fallible JavaScript operations (decodeURIComponent, URL parsing,
the media regular expression) are translated as `Option`-returning functions.
-/

/-! ## Basic string helpers -/

/-- Convert a string literal to the `List Char` representation used throughout. -/
def strL (s : String) : List Char := s.toList

/-- Value of a hexadecimal digit character, `none` if not a hex digit. -/
def hexDigitVal (c : Char) : Option Nat :=
  if '0' ≤ c ∧ c ≤ '9' then some (c.toNat - '0'.toNat)
  else if 'a' ≤ c ∧ c ≤ 'f' then some (c.toNat - 'a'.toNat + 10)
  else if 'A' ≤ c ∧ c ≤ 'F' then some (c.toNat - 'A'.toNat + 10)
  else none

/-- Upper-case hexadecimal digit for a value below 16. -/
def hexUpper (n : Nat) : Char :=
  if n < 10 then Char.ofNat ('0'.toNat + n) else Char.ofNat ('A'.toNat + n - 10)

/-- UTF-8 encoding of a single code point (standard encoding, 1 to 4 bytes). -/
def utf8EncodeChar (c : Char) : List Nat :=
  let n := c.toNat
  if n < 0x80 then [n]
  else if n < 0x800 then [0xC0 + n / 64, 0x80 + n % 64]
  else if n < 0x10000 then [0xE0 + n / 4096, 0x80 + (n / 64) % 64, 0x80 + n % 64]
  else [0xF0 + n / 262144, 0x80 + (n / 4096) % 64, 0x80 + (n / 64) % 64, 0x80 + n % 64]

/-- Is a byte a UTF-8 continuation byte? -/
def isContByte (b : Nat) : Bool := 0x80 ≤ b && b < 0xC0

/-- First pass of the ECMAScript `decodeURIComponent` / `decodeURI` model: turn
the character sequence into a byte sequence, decoding every `%XX` escape to a
byte (marked `true`) and expanding every literal character to its UTF-8 bytes
(marked `false`).  A `%` not followed by two hex digits is the URIError case. -/
def pctToBytes : List Char → Option (List (Nat × Bool))
  | [] => some []
  | '%' :: c1 :: c2 :: rest =>
    match hexDigitVal c1, hexDigitVal c2 with
    | some h, some l => (pctToBytes rest).map (fun bs => (h * 16 + l, true) :: bs)
    | _, _ => none
  | '%' :: _ => none
  | c :: rest =>
    (pctToBytes rest).map (fun bs => ((utf8EncodeChar c).map (fun b => (b, false))) ++ bs)

/-- Strict UTF-8 decoding of a marked byte sequence; rejects truncated
sequences, stray continuation bytes, overlong encodings, surrogate code
points and values above U+10FFFF, exactly the inputs on which the
ECMAScript decoder raises URIError.  A decoded character carries the mark of
its first byte (`true` when it came from a `%XX` escape). -/
def utf8DecodeMarked : List (Nat × Bool) → Option (List (Char × Bool))
  | [] => some []
  | (b, f) :: rest =>
    if b < 0x80 then
      (utf8DecodeMarked rest).map (fun cs => (Char.ofNat b, f) :: cs)
    else if b < 0xC2 then none
    else if b < 0xE0 then
      match rest with
      | (b2, _) :: rest2 =>
        if isContByte b2 then
          (utf8DecodeMarked rest2).map (fun cs => (Char.ofNat ((b - 0xC0) * 64 + (b2 - 0x80)), f) :: cs)
        else none
      | [] => none
    else if b < 0xF0 then
      match rest with
      | (b2, _) :: (b3, _) :: rest3 =>
        if isContByte b2 && isContByte b3 then
          let n := (b - 0xE0) * 4096 + (b2 - 0x80) * 64 + (b3 - 0x80)
          if n < 0x800 ∨ (0xD800 ≤ n ∧ n ≤ 0xDFFF) then none
          else (utf8DecodeMarked rest3).map (fun cs => (Char.ofNat n, f) :: cs)
        else none
      | _ => none
    else if b < 0xF5 then
      match rest with
      | (b2, _) :: (b3, _) :: (b4, _) :: rest4 =>
        if isContByte b2 && isContByte b3 && isContByte b4 then
          let n := (b - 0xF0) * 262144 + (b2 - 0x80) * 4096 + (b3 - 0x80) * 64 + (b4 - 0x80)
          if n < 0x10000 ∨ 0x10FFFF < n then none
          else (utf8DecodeMarked rest4).map (fun cs => (Char.ofNat n, f) :: cs)
        else none
      | _ => none
    else none

/-- Model of ECMAScript `decodeURIComponent`: `none` is the URIError case. -/
def decodeURIComponentModel (s : List Char) : Option (List Char) :=
  (pctToBytes s).bind (fun bs => (utf8DecodeMarked bs).map (List.map Prod.fst))

/-- Translation of `myDecodeURIComponent` (util.js lines 46-53): try to decode,
and on an error return the input unchanged. -/
def myDecodeURIComponent (s : List Char) : List Char :=
  match decodeURIComponentModel s with
  | some d => d
  | none => s

/-- Characters whose escapes `decodeURI` leaves encoded (URI reserved set plus
the number sign). -/
def uriReservedChar (c : Char) : Bool :=
  c = ';' || c = '/' || c = '?' || c = ':' || c = '@' || c = '&' || c = '=' ||
  c = '+' || c = '$' || c = ',' || c = '#'

/-- Percent-escape of one byte, upper-case hex. -/
def pctEncodeByte (b : Nat) : List Char := ['%', hexUpper (b / 16), hexUpper (b % 16)]

/-- Model of ECMAScript `decodeURI`: like `decodeURIComponent` but escapes that
denote reserved characters are kept in escaped form; `none` is the URIError
case. -/
def jsDecodeURI (s : List Char) : Option (List Char) :=
  (pctToBytes s).bind (fun bs => (utf8DecodeMarked bs).map (fun cs =>
    (cs.map (fun cf =>
      if cf.2 && uriReservedChar cf.1 then pctEncodeByte (cf.1.toNat) else [cf.1])).flatten))

/-- C10: `myDecodeURIComponent` is total: for every input string it either
returns the percent-decoded string (when decoding succeeds) or the input
string unchanged (when decoding would raise a URIError); there is no third
outcome, so it never throws to its caller. -/
theorem myDecodeURIComponent_total (s : List Char) :
    (∃ d, decodeURIComponentModel s = some d ∧ myDecodeURIComponent s = d) ∨
    (decodeURIComponentModel s = none ∧ myDecodeURIComponent s = s) := by
  unfold myDecodeURIComponent
  cases h : decodeURIComponentModel s
  · exact Or.inr ⟨rfl, rfl⟩
  · exact Or.inl ⟨_, rfl, rfl⟩

/-! ## Link-target extraction (`extractTargetIdFromHref`, mwoffliner.js 628-640) -/

/-- Characters allowed in a URL scheme by the legacy Node `url.parse`
protocol pattern. -/
def schemeChar (c : Char) : Bool :=
  ('a' ≤ c && c ≤ 'z') || ('A' ≤ c && c ≤ 'Z') || ('0' ≤ c && c ≤ '9') ||
  c = '.' || c = '+' || c = '-'

/-- Model of `urlParser.parse(href, false, true).pathname || ''` (legacy Node
`url.parse` with `slashesDenoteHost`, an external library): drop the fragment,
strip a leading `scheme:`, after `//` skip the authority up to the next `/` or
`?`, and cut the query; a null pathname becomes the empty string. -/
def parsePathname (href : List Char) : List Char :=
  let s1 := href.takeWhile (fun c => c != '#')
  let pre := s1.takeWhile schemeChar
  let s2 := if pre ≠ [] ∧ (s1.drop pre.length).head? = some ':' then
      s1.drop (pre.length + 1)
    else s1
  let s3 := if s2.take 2 = strL "//" then
      (s2.drop 2).dropWhile (fun c => !(c = '/' || c = '?'))
    else s2
  s3.takeWhile (fun c => c != '?')

/-- Translation of `extractTargetIdFromHref` (mwoffliner.js lines 628-640):
on a `./` prefix or a wiki-base-path prefix of the parsed pathname the decoded
remainder is returned; in every remaining case the function falls off its end,
i.e. returns `undefined`, modelled as `none` (the `catch` branch, which
returns the string `''`, is unreachable in this model because the modelled
parse is total). -/
def extractTargetIdFromHref (webUrlPath href : List Char) : Option (List Char) :=
  let pathname := parsePathname href
  if (strL "./").isPrefixOf pathname then
    some (myDecodeURIComponent (pathname.drop 2))
  else if webUrlPath.isPrefixOf pathname then
    some (myDecodeURIComponent (pathname.drop webUrlPath.length))
  else none

/-- C5 counterexample: for the well-formed href `/other` (with wiki base path
`/wiki/`) the function returns `undefined` (modelled `none`), not the empty
string `""` claimed by the spec. -/
theorem extractTargetIdFromHref_counterexample :
    extractTargetIdFromHref (strL "/wiki/") (strL "/other") = none ∧
    extractTargetIdFromHref (strL "/wiki/") (strL "/other") ≠ some (strL "") := by
  decide

/-- C5 (amended): for every href string, `extractTargetIdFromHref` returns the
URL-decoded remainder after a leading `./` prefix of the parsed pathname, else
the URL-decoded remainder after a leading wiki-base-path prefix, and in every
other case it returns `undefined` (modelled `none`) — a falsy value but not
the string `""`; being a total function it never throws. -/
theorem extractTargetIdFromHref_cases (webUrlPath href : List Char) :
    ((strL "./").isPrefixOf (parsePathname href) = true →
      extractTargetIdFromHref webUrlPath href =
        some (myDecodeURIComponent ((parsePathname href).drop 2))) ∧
    ((strL "./").isPrefixOf (parsePathname href) = false →
      (webUrlPath.isPrefixOf (parsePathname href) = true →
        extractTargetIdFromHref webUrlPath href =
          some (myDecodeURIComponent ((parsePathname href).drop webUrlPath.length))) ∧
      (webUrlPath.isPrefixOf (parsePathname href) = false →
        extractTargetIdFromHref webUrlPath href = none)) := by
  unfold extractTargetIdFromHref
  refine ⟨fun h1 => by simp [h1], fun h1 => ⟨fun h2 => by simp [h1, h2], fun h2 => by simp [h1, h2]⟩⟩

/-- C5 witness: the amended case analysis applied at concrete inputs. -/
theorem extractTargetIdFromHref_cases_witness :
    extractTargetIdFromHref (strL "/wiki/") (strL "./Paris%20X") =
      some (myDecodeURIComponent ((parsePathname (strL "./Paris%20X")).drop 2)) ∧
    extractTargetIdFromHref (strL "/wiki/") (strL "http://host/wiki/Lyon") =
      some (myDecodeURIComponent
        ((parsePathname (strL "http://host/wiki/Lyon")).drop (strL "/wiki/").length)) :=
  ⟨(extractTargetIdFromHref_cases (strL "/wiki/") (strL "./Paris%20X")).1 (by decide),
   ((extractTargetIdFromHref_cases (strL "/wiki/") (strL "http://host/wiki/Lyon")).2
      (by decide)).1 (by decide)⟩

/-! ## JavaScript numbers and the geohack coordinate parser
(`rewriteUrl`, mwoffliner.js 1031-1115) -/

/-- An exact rational as an integer pair (numerator, denominator; denominator
nonzero for every value the model constructs).  Core `Rat` is avoided because
its operations are irreducible and a certifying kernel evaluation is wanted.
Semantic equality is cross-multiplication (`jsratEq`). -/
structure JSRat where
  nu : Int
  de : Int
deriving DecidableEq

/-- Semantic equality of two exact rationals. -/
def jsratEq (a b : JSRat) : Bool := a.nu * b.de = b.nu * a.de

/-- A JavaScript number, modelled as an exact rational or NaN.  The operations
the geohack path performs on the claim-relevant inputs (division by the factor
1, addition to 0, multiplication by the hemisphere sign) are exact in IEEE-754
double arithmetic too, so this model decides the hemisphere-sign behaviour
faithfully. -/
inductive JSNum where
  | num (q : JSRat)
  | nan
deriving DecidableEq

/-- JavaScript addition on numbers (NaN propagates). -/
def jsAdd : JSNum → JSNum → JSNum
  | JSNum.num a, JSNum.num b => JSNum.num ⟨a.nu * b.de + b.nu * a.de, a.de * b.de⟩
  | _, _ => JSNum.nan

/-- JavaScript multiplication on numbers (NaN propagates). -/
def jsMul : JSNum → JSNum → JSNum
  | JSNum.num a, JSNum.num b => JSNum.num ⟨a.nu * b.nu, a.de * b.de⟩
  | _, _ => JSNum.nan

/-- JavaScript division by an optional factor: an out-of-range array access
(`factors[3]`) yields `undefined` and hence NaN.  Division by zero is an
infinity in JavaScript; it is unreachable here because the factor list holds
1, 60 and 3600, so the model maps it to NaN. -/
def jsDivOpt : JSNum → Option JSRat → JSNum
  | JSNum.num a, some f => if f.nu = 0 then JSNum.nan else JSNum.num ⟨a.nu * f.de, a.de * f.nu⟩
  | _, _ => JSNum.nan

/-- ASCII decimal digit test. -/
def isDigitChar (c : Char) : Bool := '0' ≤ c && c ≤ '9'

/-- Natural number denoted by a list of decimal digits. -/
def natOfDigits (l : List Char) : Nat :=
  l.foldl (fun a c => a * 10 + (c.toNat - '0'.toNat)) 0

/-- JavaScript white space characters recognised by the `Number` coercion
model. -/
def jsSpaceChar (c : Char) : Bool := c = ' ' || c = '\t' || c = '\n' || c = '\r'

/-- Trim white space at both ends. -/
def jsTrim (s : List Char) : List Char :=
  ((s.dropWhile jsSpaceChar).reverse.dropWhile jsSpaceChar).reverse

/-- Optional exponent part of a decimal literal: empty means exponent 0; a
well-formed `e`/`E` exponent gives its value; anything else is NaN (`none`). -/
def parseExpPart : List Char → Option Int
  | [] => some 0
  | c :: rest =>
    if c = 'e' ∨ c = 'E' then
      let sr : Int × List Char :=
        match rest with
        | '-' :: r => (-1, r)
        | '+' :: r => (1, r)
        | _ => (1, rest)
      let ds := sr.2.takeWhile isDigitChar
      if ds ≠ [] ∧ sr.2.drop ds.length = [] then some (sr.1 * natOfDigits ds) else none
    else none

/-- Apply a decimal exponent to an exact rational. -/
def applyExp (b : JSRat) (e : Int) : JSRat :=
  if 0 ≤ e then ⟨b.nu * (10 : Int) ^ e.toNat, b.de⟩ else ⟨b.nu, b.de * (10 : Int) ^ (-e).toNat⟩

/-- Model of the ECMAScript `Number(string)` coercion for the string shapes
the geohack parser meets: white space is trimmed, the empty string is 0, a
signed decimal literal with optional fraction and exponent is its exact
value, everything else is NaN.  (The special spellings `Infinity` and the
hex/octal/binary prefixes are mapped to NaN by this model; they do not occur
in the claims.) -/
def jsToNumber (s : List Char) : JSNum :=
  let t := jsTrim s
  if t = [] then JSNum.num ⟨0, 1⟩
  else
    let st : Int × List Char :=
      match t with
      | '-' :: r => (-1, r)
      | '+' :: r => (1, r)
      | _ => (1, t)
    let ip := st.2.takeWhile isDigitChar
    let r1 := st.2.drop ip.length
    let fr : List Char × List Char :=
      match r1 with
      | '.' :: r => (r.takeWhile isDigitChar, r.drop (r.takeWhile isDigitChar).length)
      | _ => ([], r1)
    if ip = [] ∧ fr.1 = [] then JSNum.nan
    else
      match parseExpPart fr.2 with
      | none => JSNum.nan
      | some e =>
        JSNum.num (applyExp
          ⟨st.1 * ((natOfDigits ip : Int) * (10 : Int) ^ fr.1.length + (natOfDigits fr.1 : Int)),
           (10 : Int) ^ fr.1.length⟩ e)

/-- The `factors` array `[1, 60, 3600]` of the DMS loop. -/
def geoFactors : List JSRat := [⟨1, 1⟩, ⟨60, 1⟩, ⟨3600, 1⟩]

/-- The latitude hemisphere hash `{N: 1, S: -1}`. -/
def latHemiHash (v : List Char) : Option JSRat :=
  if v = strL "N" then some ⟨1, 1⟩ else if v = strL "S" then some ⟨-1, 1⟩ else none

/-- The longitude hemisphere hash `{E: 1, W: -1, O: 1}`. -/
def lonHemiHash (v : List Char) : Option JSRat :=
  if v = strL "E" then some ⟨1, 1⟩
  else if v = strL "W" then some ⟨-1, 1⟩
  else if v = strL "O" then some ⟨1, 1⟩
  else none

/-- Translation of the `deg` loop body (mwoffliner.js 1068-1081).  The inner
`let hemiSign = hemiHash[v]` declares a new block-scoped variable shadowing
the outer `let hemiSign = 1`, so the final `return out * hemiSign` always
reads the outer variable, i.e. multiplies by 1; the translation keeps that
multiplication explicit.  Returns the value of the loop together with the new
value of the closure variable `offs` (set to `i + 1` on break, unchanged
otherwise).  The loop bound `i < 4` is carried as the structurally decreasing
`fuel = 4 - i`. -/
def geohackDegGo (hemi : List Char → Option JSRat) (pieces : List (List Char)) (offs : Nat) :
    Nat → Nat → JSNum → JSNum × Nat
  | 0, _, out => (jsMul out (JSNum.num ⟨1, 1⟩), offs)
  | fuel + 1, i, out =>
    if i + offs < pieces.length then
      let v := pieces.getD (i + offs) []
      match hemi v with
      | some _ => (jsMul out (JSNum.num ⟨1, 1⟩), i + 1)
      | none =>
        geohackDegGo hemi pieces offs fuel (i + 1)
          (jsAdd out (jsDivOpt (jsToNumber v) (geoFactors.get? i)))
    else (jsMul out (JSNum.num ⟨1, 1⟩), offs)

/-- The function `deg(hemiHash)` of the geohack branch, starting at the
current `offs` with accumulator 0 and loop counter `i = 0` (fuel 4). -/
def geohackDeg (hemi : List Char → Option JSRat) (pieces : List (List Char)) (offs : Nat) :
    JSNum × Nat :=
  geohackDegGo hemi pieces offs 4 0 (JSNum.num ⟨0, 1⟩)

/-- A value the geohack branch may assign to `lat`/`lon`: a string (the
semicolon branch assigns the raw upper-cased pieces) or a number (the DMS
branch). -/
inductive GeoVal where
  | strv (s : List Char)
  | numv (v : JSNum)
deriving DecidableEq

/-- The `isNaN` test applied to a `GeoVal` (strings are coerced to number
first). -/
def geoValIsNaN : GeoVal → Bool
  | GeoVal.strv s => jsToNumber s = JSNum.nan
  | GeoVal.numv v => v = JSNum.nan

/-- Translation of the geohack `params` handling (mwoffliner.js 1057-1085):
empty `params` is falsy and leaves `lat`/`lon` undefined (`none`); otherwise
the upper-cased string is split on `_`; if the first piece splits on `;` into
exactly two parts those parts become `lat`/`lon`; otherwise the DMS loop runs
for latitude and then, from the updated offset, for longitude. -/
def geohackLatLonOfParams (params : List Char) : Option (GeoVal × GeoVal) :=
  if params = [] then none
  else
    let pieces := (params.map Char.toUpper).splitOn '_'
    let semiPieces : Option (List (List Char)) :=
      if pieces.length > 0 then some ((pieces.getD 0 []).splitOn ';') else none
    match semiPieces with
    | some sp =>
      if sp.length = 2 then
        some (GeoVal.strv (sp.getD 0 []), GeoVal.strv (sp.getD 1 []))
      else
        let latR := geohackDeg latHemiHash pieces 0
        let lonR := geohackDeg lonHemiHash pieces latR.2
        some (GeoVal.numv latR.1, GeoVal.numv lonR.1)
    | none =>
      let latR := geohackDeg latHemiHash pieces 0
      let lonR := geohackDeg lonHemiHash pieces latR.2
      some (GeoVal.numv latR.1, GeoVal.numv lonR.1)

/-- Does a geohack result hold the given numeric latitude and longitude
(semantic rational equality)? -/
def geoResultEq (r : Option (GeoVal × GeoVal)) (lat lon : JSRat) : Bool :=
  match r with
  | some (GeoVal.numv (JSNum.num a), GeoVal.numv (JSNum.num b)) =>
    jsratEq a lat && jsratEq b lon
  | _ => false

/-- C1: evaluation of the geohack DMS branch.  The first conjunct shows the
spec's own example works (both hemispheres positive, result
`geo:48.85825,2.2945`).  The remaining conjuncts evaluate the code at
`48.85825_S_2.2945_W_type:landmark`: the result is again
`(+48.85825, +2.2945)` and not the claimed `(-48.85825, -2.2945)` — the
hemisphere sign is never applied, because the inner `let hemiSign` in the
loop shadows the outer variable that `return out * hemiSign` reads, so S and
W do not negate the coordinate as the claim (and the hash `{N: 1, S: -1}`
itself) intend. -/
theorem geohack_sign_never_applied :
    geoResultEq (geohackLatLonOfParams (strL "48.85825_N_2.2945_E_type:landmark"))
      ⟨4885825, 100000⟩ ⟨22945, 10000⟩ = true ∧
    geoResultEq (geohackLatLonOfParams (strL "48.85825_S_2.2945_W_type:landmark"))
      ⟨4885825, 100000⟩ ⟨22945, 10000⟩ = true ∧
    geoResultEq (geohackLatLonOfParams (strL "48.85825_S_2.2945_W_type:landmark"))
      ⟨-4885825, 100000⟩ ⟨-22945, 10000⟩ = false := by
  decide

/-! ## HTTP fetcher (`downloadContent`, mwoffliner.js 1624-1744)

One HTTP attempt is driven by asynchronous events; each completion path of the
source funnels into `callFinished`, which is guarded by the `calledFinished`
flag.  An attempt is modelled by the list of completion events the network
delivers for it, in delivery order; the socket error/timeout handlers re-emit
a request error, so they are the `reqError` event. -/

/-- A completion event of one attempt.  `response status body` is a fully read
response (for status 200 the decoded body is delivered; any other status takes
the error path of the source); `respError` is a response stream error;
`reqError` is a request error (also reached from the socket error and socket
timeout handlers); `decodeFail` is a gzip/deflate decoding error. -/
inductive FetchEvent where
  | response (status : Nat) (body : List Nat)
  | respError
  | reqError
  | decodeFail
deriving DecidableEq

/-- What one event passes to `finished` when it is the first to arrive:
`some body` on a 200 response, `none` (an error message) otherwise. -/
def attemptOutcome : FetchEvent → Option (List Nat)
  | FetchEvent.response s b => if s = 200 then some b else none
  | _ => none

/-- The `calledFinished` guard of `callFinished`: each event calls
`callFinished`, and `finished` itself runs only when the flag is still false.
Returns the number of times `finished` is invoked. -/
def callFinishedFold : Bool → List FetchEvent → Nat
  | _, [] => 0
  | called, _ :: rest =>
    if called then callFinishedFold called rest else 1 + callFinishedFold true rest

/-- Result of one attempt: how often `finished` ran and, when it ran, what the
first event passed to it (`none` outcome means no event arrived at all, so
the attempt hangs). -/
structure AttemptResult where
  finishedCount : Nat
  outcome : Option (Option (List Nat))
deriving DecidableEq

/-- Run one attempt on its event list. -/
def runAttempt (events : List FetchEvent) : AttemptResult :=
  { finishedCount := callFinishedFold false events,
    outcome := events.head?.map attemptOutcome }

/-- Translation of the `async.retry(3, …)` loop: attempt `n` uses request
timeout `requestTimeout * 1000 * n` ms (the `retryCount` multiplier of the
source); a failed attempt is retried while attempts remain.  Returns the list
of request timeouts of the started attempts, the per-attempt `finished`
counts, and the final outcome (`none`: the last started attempt hung;
`some none`: retries exhausted with an error; `some (some b)`: success). -/
def retryRun (cfg : Nat) (oracle : Nat → List FetchEvent) :
    Nat → Nat → List Nat × List Nat × Option (Option (List Nat))
  | 0, _ => ([], [], some none)
  | rem + 1, n =>
    let ar := runAttempt (oracle n)
    let t := cfg * 1000 * n
    match ar.outcome with
    | none => ([t], [ar.finishedCount], none)
    | some (some b) => ([t], [ar.finishedCount], some (some b))
    | some none =>
      if rem = 0 then ([t], [ar.finishedCount], some none)
      else
        let r := retryRun cfg oracle rem (n + 1)
        (t :: r.1, ar.finishedCount :: r.2.1, r.2.2)

/-- Observable behaviour of one `downloadContent` call. -/
structure DownloadRun where
  attempts : Nat
  timeouts : List Nat
  finishedCounts : List Nat
  callbackBodies : List (List Nat)
deriving DecidableEq

/-- Translation of `downloadContent` for a given per-attempt event oracle
(attempts are numbered from 1; `async.retry(3, …)` allows three attempts).
The final callback receives `data || new Buffer(0)`: the body on success and
a zero-length buffer after exhausted retries; if an attempt hung, the
callback never runs. -/
def downloadContentModel (cfg : Nat) (oracle : Nat → List FetchEvent) : DownloadRun :=
  let r := retryRun cfg oracle 3 1
  { attempts := r.1.length,
    timeouts := r.1,
    finishedCounts := r.2.1,
    callbackBodies :=
      match r.2.2 with
      | none => []
      | some none => [[]]
      | some (some b) => [b] }

/-- Once the `calledFinished` flag is set no further event reaches
`finished`. -/
theorem callFinishedFold_true (l : List FetchEvent) : callFinishedFold true l = 0 := by
  induction l with
  | nil => rfl
  | cons e rest ih => simpa [callFinishedFold] using ih

/-- A nonempty event list drives `finished` exactly once. -/
theorem runAttempt_finishedCount {events : List FetchEvent} (h : events ≠ []) :
    (runAttempt events).finishedCount = 1 := by
  cases events with
  | nil => exact absurd rfl h
  | cons e rest => simp [runAttempt, callFinishedFold, callFinishedFold_true]

/-- Structure of a `retryRun`: it starts at most `rem` attempts, their request
timeouts are `cfg * 1000 * (n + k)` in order, and whenever every attempt in
reach fails with its first event, the final outcome is the exhausted-error
one. -/
theorem retryRun_spec (cfg : Nat) (oracle : Nat → List FetchEvent) :
    ∀ rem n,
      (retryRun cfg oracle rem n).1.length ≤ rem ∧
      (retryRun cfg oracle rem n).1 =
        (List.range (retryRun cfg oracle rem n).1.length).map (fun k => cfg * 1000 * (n + k)) ∧
      ((∀ m, n ≤ m → m < n + rem → (runAttempt (oracle m)).outcome = some none) →
        (retryRun cfg oracle rem n).2.2 = some none) := by
  intro rem
  induction rem with
  | zero => intro n; simp [retryRun]
  | succ rem ih =>
    intro n
    rcases hout : (runAttempt (oracle n)).outcome with _ | b
    · constructor
      · simp [retryRun, hout]
      · constructor
        · simp [retryRun, hout, List.range_succ]
        · intro hall
          have := hall n (le_refl n) (by omega)
          rw [this] at hout
          exact absurd hout (by simp)
    · rcases b with _ | b
      · by_cases hrem : rem = 0
        · subst hrem
          refine ⟨by simp [retryRun, hout], by simp [retryRun, hout, List.range_succ], ?_⟩
          intro _; simp [retryRun, hout]
        · have hr := ih (n + 1)
          refine ⟨?_, ?_, ?_⟩
          · simp only [retryRun, hout]
            simp only [hrem, if_false]
            simpa using hr.1
          · simp only [retryRun, hout]
            simp only [hrem, if_false]
            have h2 := hr.2.1
            simp only [List.length_cons, List.range_succ_eq_map, List.map_cons, List.map_map]
            rw [h2]
            simp only [List.length_map, List.length_range]
            refine List.cons_eq_cons.mpr ⟨by norm_num, ?_⟩
            apply List.map_congr_left
            intro k _
            simp only [Function.comp]
            congr 1
            omega
          · intro hall
            simp only [retryRun, hout, hrem, if_false]
            apply hr.2.2
            intro m hm1 hm2
            exact hall m (by omega) (by omega)
      · refine ⟨by simp [retryRun, hout], by simp [retryRun, hout, List.range_succ], ?_⟩
        intro hall
        have := hall n (le_refl n) (by omega)
        rw [this] at hout
        exact absurd hout (by simp)

/-- C3: `downloadContent` makes at most 3 attempts; attempt `n` gets request
timeout `configuredTimeout × 1000 × n` ms (i.e. `configuredTimeout × n`
seconds); a non-200 status on the first attempt is treated as a transient
failure and retried (a second attempt is started); and when every attempt
fails, the caller's callback is still invoked with a zero-length body, so the
run continues. -/
theorem downloadContent_retry_spec (cfg : Nat) (oracle : Nat → List FetchEvent) :
    (downloadContentModel cfg oracle).attempts ≤ 3 ∧
    (downloadContentModel cfg oracle).timeouts =
      (List.range (downloadContentModel cfg oracle).attempts).map
        (fun k => cfg * 1000 * (k + 1)) ∧
    (∀ c b rest, oracle 1 = FetchEvent.response c b :: rest → c ≠ 200 →
      2 ≤ (downloadContentModel cfg oracle).attempts) ∧
    ((∀ n, 1 ≤ n → n ≤ 3 → (runAttempt (oracle n)).outcome = some none) →
      (downloadContentModel cfg oracle).callbackBodies = [[]]) := by
  obtain ⟨hlen, htime, hfail⟩ := retryRun_spec cfg oracle 3 1
  refine ⟨hlen, ?_, ?_, ?_⟩
  · simp only [downloadContentModel]
    rw [htime]
    simp only [List.length_map, List.length_range]
    apply List.map_congr_left
    intro k _
    congr 1
    omega
  · intro c b rest hor hc
    have h1 : (runAttempt (oracle 1)).outcome = some none := by
      simp [runAttempt, hor, attemptOutcome, hc]
    simp only [downloadContentModel, retryRun, h1]
    rcases h2 : (runAttempt (oracle 2)).outcome with _ | b2
    · simp [h2]
    · rcases b2 with _ | b2 <;> simp [h2]
  · intro hall
    have h2 := hfail (by intro m hm1 hm2; exact hall m hm1 (by omega))
    simp only [downloadContentModel]
    rw [h2]

/-- C3 witness: a concrete run (timeout 60, first two attempts return status
503, third succeeds with body `[7]`), evaluated through the theorem. -/
theorem downloadContent_retry_spec_witness :
    (downloadContentModel 60 (fun n =>
        if n = 3 then [FetchEvent.response 200 [7]] else [FetchEvent.response 503 []])).attempts ≤ 3 ∧
    2 ≤ (downloadContentModel 60 (fun n =>
        if n = 3 then [FetchEvent.response 200 [7]] else [FetchEvent.response 503 []])).attempts := by
  refine ⟨(downloadContent_retry_spec 60 _).1, ?_⟩
  exact (downloadContent_retry_spec 60 _).2.2.1 503 [] [] (by decide) (by decide)

/-- Whenever every attempt the retry loop starts receives at least one
completion event, `finished` runs exactly once per started attempt and the
final outcome is decided (not a hang). -/
theorem retryRun_once (cfg : Nat) (oracle : Nat → List FetchEvent) :
    ∀ rem n, (∀ m, n ≤ m → m < n + rem → oracle m ≠ []) →
      (∀ x ∈ (retryRun cfg oracle rem n).2.1, x = 1) ∧
      (retryRun cfg oracle rem n).2.2 ≠ none := by
  intro rem
  induction rem with
  | zero => intro n _; simp [retryRun]
  | succ rem ih =>
    intro n hne
    have hn : oracle n ≠ [] := hne n (le_refl n) (by omega)
    have hfc : (runAttempt (oracle n)).finishedCount = 1 := runAttempt_finishedCount hn
    have hsome : (runAttempt (oracle n)).outcome ≠ none := by
      simp only [runAttempt]
      cases hev : oracle n with
      | nil => exact absurd hev hn
      | cons e rest => simp
    rcases hout : (runAttempt (oracle n)).outcome with _ | b
    · exact absurd hout hsome
    · rcases b with _ | b
      · by_cases hrem : rem = 0
        · subst hrem
          constructor
          · intro x hx
            simp only [retryRun, hout] at hx
            simp at hx
            omega
          · simp [retryRun, hout]
        · have hr := ih (n + 1) (by intro m hm1 hm2; exact hne m (by omega) (by omega))
          constructor
          · intro x hx
            simp only [retryRun, hout, hrem, if_false] at hx
            rcases List.mem_cons.mp hx with h | h
            · omega
            · exact hr.1 x h
          · simp only [retryRun, hout, hrem, if_false]
            exact hr.2
      · constructor
        · intro x hx
          simp only [retryRun, hout] at hx
          simp at hx
          omega
        · simp [retryRun, hout]

/-- C9: for every invocation of `downloadContent` in which each started
attempt receives at least one completion event (the request timeout
guarantees one in the source), the caller's callback is invoked exactly once
— never zero times and never more than once — and the per-attempt `finished`
continuation also runs exactly once per attempt, whatever mix of success,
non-200 status, request error or socket error the attempts end in: the
`calledFinished` guard serialises the completion paths. -/
theorem downloadContent_callback_once (cfg : Nat) (oracle : Nat → List FetchEvent)
    (hne : ∀ n, 1 ≤ n → n ≤ 3 → oracle n ≠ []) :
    (downloadContentModel cfg oracle).callbackBodies.length = 1 ∧
    (∀ x ∈ (downloadContentModel cfg oracle).finishedCounts, x = 1) := by
  have h := retryRun_once cfg oracle 3 1 (by intro m hm1 hm2; exact hne m hm1 (by omega))
  constructor
  · simp only [downloadContentModel]
    rcases hout : (retryRun cfg oracle 3 1).2.2 with _ | b
    · exact absurd hout h.2
    · rcases b with _ | b <;> simp
  · simpa only [downloadContentModel] using h.1

/-- C9 witness: a concrete run whose first attempt hits a request error, the
second a socket error and the third a 200 response: the callback still runs
exactly once. -/
theorem downloadContent_callback_once_witness :
    (downloadContentModel 60 (fun n =>
        if n = 1 then [FetchEvent.reqError]
        else if n = 2 then [FetchEvent.reqError, FetchEvent.respError]
        else [FetchEvent.response 200 [1, 2]])).callbackBodies.length = 1 :=
  (downloadContent_callback_once 60 _ (by intro n h1 h3; interval_cases n <;> decide)).1

/-! ## Surrogate-pair aware indexing (`charAt`, util.js 55-81)

Here a JavaScript string is a list of UTF-16 code units (`List Nat`).  The
source loops `surrogatePairs.exec` over the string: the regex engine finds
successive non-overlapping pair matches from the left, and for every match
starting before the (progressively adjusted) index the index is bumped by
one; afterwards the code unit at the adjusted index is returned, together
with the following unit when a high surrogate is followed by a low one. -/

/-- High-surrogate test (the `[\uD800-\uDBFF]` class). -/
def isHighSurrogate (u : Nat) : Bool := 0xD800 ≤ u && u ≤ 0xDBFF

/-- Low-surrogate test (the `[\uDC00-\uDFFF]` class). -/
def isLowSurrogate (u : Nat) : Bool := 0xDC00 ≤ u && u ≤ 0xDFFF

/-- Does a surrogate pair (high at `i`, low at `i+1`) start at position `i`? -/
def pairAt (s : List Nat) (i : Nat) : Bool :=
  decide (i + 1 < s.length) && isHighSurrogate (s.getD i 0) && isLowSurrogate (s.getD (i + 1) 0)

/-- Scan for the first pair at a position `≥ pos`, examining `fuel` successive
positions (the regex engine's left-to-right search). -/
def findPairGo (s : List Nat) : Nat → Nat → Option Nat
  | 0, _ => none
  | fuel + 1, pos => if pairAt s pos = true then some pos else findPairGo s fuel (pos + 1)

/-- First position `≥ pos` at which a surrogate pair starts (`exec` from
`lastIndex = pos`). -/
def findPair (s : List Nat) (pos : Nat) : Option Nat :=
  findPairGo s (s.length - pos) pos

/-- The `while ((surrogatePairs.exec(str)) != null)` loop of `charAt`:
each pair found strictly before the current index bumps the index and the
scan resumes after that pair; the loop stops at the first pair at or past the
index (or when no pair remains).  `fuel` bounds the number of iterations; the
initial fuel `s.length + 1` is never exhausted because every iteration moves
the scan position forward by at least two. -/
def adjustIdxGo (s : List Nat) : Nat → Nat → Nat → Nat
  | 0, _, idx => idx
  | fuel + 1, pos, idx =>
    match findPair s pos with
    | none => idx
    | some q => if q < idx then adjustIdxGo s fuel (q + 2) (idx + 1) else idx

/-- The adjusted code-unit index for requested code-point index `idx`. -/
def adjustIdx (s : List Nat) (idx : Nat) : Nat :=
  adjustIdxGo s (s.length + 1) 0 idx

/-- Translation of `charAt(str, idx)` (util.js 55-81) for a non-negative
index: empty result when the adjusted index is out of range, otherwise the
unit at the adjusted index, together with the following unit when the first
is a high surrogate and the next a low one (`str.charAt(idx + 1)` is the
empty string out of range, on which the low-surrogate test is false, matching
the default value 0 here). -/
def charAt (s : List Nat) (idx : Nat) : List Nat :=
  let j := adjustIdx s idx
  if s.length ≤ j then []
  else if isHighSurrogate (s.getD j 0) && isLowSurrogate (s.getD (j + 1) 0) then
    [s.getD j 0, s.getD (j + 1) 0]
  else [s.getD j 0]

/-- A pair cannot start right after a pair start: the unit at `q + 1` is a low
surrogate, and a pair start needs a high surrogate. -/
theorem pairAt_succ_false {s : List Nat} {q : Nat} (h : pairAt s q = true) :
    pairAt s (q + 1) = false := by
  simp only [pairAt, Bool.and_eq_true, decide_eq_true_eq] at h
  rcases h with ⟨⟨_, _⟩, hlow⟩
  simp only [pairAt, Bool.and_eq_true, decide_eq_true_eq]
  simp only [isLowSurrogate, Bool.and_eq_true, decide_eq_true_eq] at hlow
  simp only [isHighSurrogate]
  by_contra hc
  simp only [Bool.not_eq_false, Bool.and_eq_true, decide_eq_true_eq] at hc
  omega

/-- If the fuelled scan finds a pair, it is a pair at or after the start, and
no pair starts between. -/
theorem findPairGo_some {s : List Nat} :
    ∀ {fuel pos q : Nat}, findPairGo s fuel pos = some q →
      pos ≤ q ∧ pairAt s q = true ∧ ∀ i, pos ≤ i → i < q → pairAt s i = false := by
  intro fuel
  induction fuel with
  | zero => intro pos q h; exact absurd h (by simp [findPairGo])
  | succ fuel ih =>
    intro pos q h
    by_cases hp : pairAt s pos = true
    · simp only [findPairGo, hp, if_true, Option.some.injEq] at h
      subst h
      exact ⟨le_refl _, hp, fun i h1 h2 => absurd (lt_of_le_of_lt h1 h2) (lt_irrefl _)⟩
    · simp only [findPairGo, hp, if_false] at h
      obtain ⟨h1, h2, h3⟩ := ih h
      refine ⟨by omega, h2, ?_⟩
      intro i hi1 hi2
      rcases Nat.eq_or_lt_of_le hi1 with he | hl
      · subst he; simpa using hp
      · exact h3 i hl hi2

/-- If the fuelled scan finds nothing, no pair starts in the scanned range. -/
theorem findPairGo_none {s : List Nat} :
    ∀ {fuel pos : Nat}, findPairGo s fuel pos = none →
      ∀ i, pos ≤ i → i < pos + fuel → pairAt s i = false := by
  intro fuel
  induction fuel with
  | zero => intro pos _ i h1 h2; omega
  | succ fuel ih =>
    intro pos h i h1 h2
    by_cases hp : pairAt s pos = true
    · simp [findPairGo, hp] at h
    · simp only [findPairGo, hp, if_false] at h
      rcases Nat.eq_or_lt_of_le h1 with he | hl
      · subst he; simpa using hp
      · exact ih h i hl (by omega)

/-- A pair start is strictly before the penultimate position. -/
theorem pairAt_lt_length {s : List Nat} {i : Nat} (h : pairAt s i = true) :
    i + 1 < s.length := by
  simp only [pairAt, Bool.and_eq_true, decide_eq_true_eq] at h
  exact h.1.1

/-- `findPair` specification on `some`. -/
theorem findPair_some {s : List Nat} {pos q : Nat} (h : findPair s pos = some q) :
    pos ≤ q ∧ pairAt s q = true ∧ ∀ i, pos ≤ i → i < q → pairAt s i = false :=
  findPairGo_some h

/-- `findPair` specification on `none`: no pair at or after the position. -/
theorem findPair_none {s : List Nat} {pos : Nat} (h : findPair s pos = none) :
    ∀ i, pos ≤ i → pairAt s i = false := by
  intro i hi
  by_cases hlen : i + 1 < s.length
  · exact findPairGo_none h i hi (by omega)
  · by_contra hc
    simp only [Bool.not_eq_false] at hc
    exact hlen (pairAt_lt_length hc)

/-- Invariant of the adjustment loop: provided the remaining fuel still covers
the string and every pair before the scan position already lies entirely
below the current index, the final index lands outside every surrogate pair
(at or before its high half, or past its low half). -/
theorem adjustIdxGo_spec (s : List Nat) :
    ∀ fuel pos idx,
      s.length ≤ pos + 2 * fuel →
      (∀ p, pairAt s p = true → p < pos → p + 2 ≤ idx) →
      ∀ p, pairAt s p = true →
        (adjustIdxGo s fuel pos idx ≤ p ∨ p + 2 ≤ adjustIdxGo s fuel pos idx) := by
  intro fuel
  induction fuel with
  | zero =>
    intro pos idx hcov hprev p hp
    have hlen := pairAt_lt_length hp
    have : p < pos := by omega
    exact Or.inr (by simpa [adjustIdxGo] using hprev p hp this)
  | succ fuel ih =>
    intro pos idx hcov hprev p hp
    rcases hfp : findPair s pos with _ | q
    · have := findPair_none hfp
      simp only [adjustIdxGo, hfp]
      by_cases hpp : p < pos
      · exact Or.inr (hprev p hp hpp)
      · rw [this p (by omega)] at hp
        exact absurd hp (by simp)
    · obtain ⟨hq1, hq2, hq3⟩ := findPair_some hfp
      by_cases hqi : q < idx
      · simp only [adjustIdxGo, hfp, hqi, if_true]
        apply ih (q + 2) (idx + 1)
        · have := pairAt_lt_length hq2
          omega
        · intro r hr hrlt
          by_cases hrp : r < pos
          · have := hprev r hr hrp
            omega
          · rcases Nat.lt_or_ge r q with h | h
            · rw [hq3 r (by omega) h] at hr
              exact absurd hr (by simp)
            · rcases Nat.eq_or_lt_of_le h with he | hl
              · subst he; omega
              · have : r = q + 1 := by omega
                subst this
                rw [pairAt_succ_false hq2] at hr
                exact absurd hr (by simp)
        · exact hp
      · simp only [adjustIdxGo, hfp, hqi, if_false]
        by_cases hpp : p < pos
        · exact Or.inr (hprev p hp hpp)
        · rcases Nat.lt_or_ge p q with h | h
          · rw [hq3 p (by omega) h] at hp
            exact absurd hp (by simp)
          · exact Or.inl (by omega)

/-- The adjusted index never lands strictly inside a surrogate pair. -/
theorem adjustIdx_spec (s : List Nat) (idx : Nat) :
    ∀ p, pairAt s p = true → (adjustIdx s idx ≤ p ∨ p + 2 ≤ adjustIdx s idx) := by
  intro p hp
  exact adjustIdxGo_spec s (s.length + 1) 0 idx (by omega) (by intro r _ h; omega) p hp

/-- C8: for every UTF-16 string and every requested code-point index,
`charAt` returns a whole code point: either the empty string (index out of
range), or a full high+low surrogate pair, or a single unit that is neither
the high half nor the low half of an adjacent surrogate pair in the string —
it never returns a lone surrogate taken from a pair. -/
theorem charAt_never_splits_pair (s : List Nat) (k : Nat) :
    charAt s k = [] ∨
    (∃ h l, charAt s k = [h, l] ∧ isHighSurrogate h = true ∧ isLowSurrogate l = true) ∨
    (∃ c, charAt s k = [c] ∧ pairAt s (adjustIdx s k) = false ∧
      (adjustIdx s k = 0 ∨ pairAt s (adjustIdx s k - 1) = false)) := by
  by_cases hlen : s.length ≤ adjustIdx s k
  · exact Or.inl (by simp [charAt, hlen])
  · by_cases hpair : (isHighSurrogate (s.getD (adjustIdx s k) 0) &&
        isLowSurrogate (s.getD (adjustIdx s k + 1) 0)) = true
    · refine Or.inr (Or.inl ⟨s.getD (adjustIdx s k) 0, s.getD (adjustIdx s k + 1) 0, ?_, ?_, ?_⟩)
      · simp only [charAt]
        rw [if_neg hlen, if_pos hpair]
      · exact (Bool.and_eq_true _ _ |>.mp hpair).1
      · exact (Bool.and_eq_true _ _ |>.mp hpair).2
    · refine Or.inr (Or.inr ⟨s.getD (adjustIdx s k) 0, ?_, ?_, ?_⟩)
      · simp only [charAt]
        rw [if_neg hlen, if_neg hpair]
      · by_contra hc
        simp only [Bool.not_eq_false] at hc
        apply hpair
        simp only [pairAt, Bool.and_eq_true, decide_eq_true_eq] at hc
        exact Bool.and_eq_true _ _ |>.mpr ⟨hc.1.2, hc.2⟩
      · by_cases h0 : adjustIdx s k = 0
        · exact Or.inl h0
        · refine Or.inr ?_
          by_contra hc
          simp only [Bool.not_eq_false] at hc
          rcases adjustIdx_spec s k (adjustIdx s k - 1) hc with h | h
          · omega
          · omega

/-- The surrogate-aware indexing on concrete inputs: with the string
`[high, low, 'a']` index 0 is the whole pair and index 1 the following
letter; with `[high, high, low]` index 1 is the pair and index 0 the lone
leading high surrogate. -/
theorem charAt_examples :
    charAt [0xD83D, 0xDE00, 97] 0 = [0xD83D, 0xDE00] ∧
    charAt [0xD83D, 0xDE00, 97] 1 = [97] ∧
    charAt [0xD83D, 0xD83D, 0xDE00] 1 = [0xD83D, 0xDE00] ∧
    charAt [0xD83D, 0xD83D, 0xDE00] 0 = [0xD83D] ∧
    charAt [0xD83D, 0xDE00, 97] 2 = [] := by
  decide

/-! ## MD5 (Node `crypto.createHash('md5')`, used by the filename truncation)

Standard MD5 over byte lists, on `Nat` with explicit reduction mod 2^32. -/

/-- Reduce to 32 bits. -/
def m32 (n : Nat) : Nat := n % 4294967296

/-- Bitwise complement on 32 bits. -/
def bnot32 (x : Nat) : Nat := 4294967295 - x % 4294967296

/-- Rotate a 32-bit value left by `s` bits (`s < 32`). -/
def rotl32 (x s : Nat) : Nat :=
  (x % 2 ^ (32 - s)) * 2 ^ s + x % 4294967296 / 2 ^ (32 - s)

/-- The per-round shift amounts. -/
def md5S : List Nat :=
  [7, 12, 17, 22, 7, 12, 17, 22, 7, 12, 17, 22, 7, 12, 17, 22,
   5, 9, 14, 20, 5, 9, 14, 20, 5, 9, 14, 20, 5, 9, 14, 20,
   4, 11, 16, 23, 4, 11, 16, 23, 4, 11, 16, 23, 4, 11, 16, 23,
   6, 10, 15, 21, 6, 10, 15, 21, 6, 10, 15, 21, 6, 10, 15, 21]

/-- The sine-derived round constants. -/
def md5K : List Nat :=
  [3614090360, 3905402710, 606105819, 3250441966,
   4118548399, 1200080426, 2821735955, 4249261313,
   1770035416, 2336552879, 4294925233, 2304563134,
   1804603682, 4254626195, 2792965006, 1236535329,
   4129170786, 3225465664, 643717713, 3921069994,
   3593408605, 38016083, 3634488961, 3889429448,
   568446438, 3275163606, 4107603335, 1163531501,
   2850285829, 4243563512, 1735328473, 2368359562,
   4294588738, 2272392833, 1839030562, 4259657740,
   2763975236, 1272893353, 4139469664, 3200236656,
   681279174, 3936430074, 3572445317, 76029189,
   3654602809, 3873151461, 530742520, 3299628645,
   4096336452, 1126891415, 2878612391, 4237533241,
   1700485571, 2399980690, 4293915773, 2240044497,
   1873313359, 4264355552, 2734768916, 1309151649,
   4149444226, 3174756917, 718787259, 3951481745]

/-- Little-endian 32-bit word at byte offset `j` of a chunk. -/
def leWord (chunk : List Nat) (j : Nat) : Nat :=
  chunk.getD j 0 + chunk.getD (j + 1) 0 * 256 + chunk.getD (j + 2) 0 * 65536 +
    chunk.getD (j + 3) 0 * 16777216

/-- One MD5 round step. -/
def md5Round (M : Nat → Nat) (st : Nat × Nat × Nat × Nat) (i : Nat) : Nat × Nat × Nat × Nat :=
  let a := st.1
  let b := st.2.1
  let c := st.2.2.1
  let d := st.2.2.2
  let fg : Nat × Nat :=
    if i < 16 then ((b &&& c) ||| (bnot32 b &&& d), i)
    else if i < 32 then ((d &&& b) ||| (bnot32 d &&& c), (5 * i + 1) % 16)
    else if i < 48 then (b ^^^ c ^^^ d, (3 * i + 5) % 16)
    else (c ^^^ (b ||| bnot32 d), (7 * i) % 16)
  let tmp := m32 (a + fg.1 + md5K.getD i 0 + M fg.2)
  (d, m32 (b + rotl32 tmp (md5S.getD i 0)), b, c)

/-- Process one 64-byte chunk. -/
def md5ProcessChunk (st : Nat × Nat × Nat × Nat) (chunk : List Nat) : Nat × Nat × Nat × Nat :=
  let M := fun g => leWord chunk (4 * g)
  let r := (List.range 64).foldl (md5Round M) st
  (m32 (st.1 + r.1), m32 (st.2.1 + r.2.1), m32 (st.2.2.1 + r.2.2.1), m32 (st.2.2.2 + r.2.2.2))

/-- `count` little-endian bytes of `n`. -/
def leBytes (n : Nat) : Nat → List Nat
  | 0 => []
  | k + 1 => n % 256 :: leBytes (n / 256) k

/-- MD5 padding: a `0x80` byte, zeros to 56 mod 64, then the bit length as 8
little-endian bytes. -/
def md5Pad (msg : List Nat) : List Nat :=
  let len := msg.length
  let zeros := (119 - len % 64) % 64
  msg ++ [128] ++ List.replicate zeros 0 ++ leBytes (len * 8) 8

/-- Split into 64-byte chunks (fuelled; the fuel covers the list). -/
def chunks64Go : Nat → List Nat → List (List Nat)
  | 0, _ => []
  | fuel + 1, l => if l = [] then [] else l.take 64 :: chunks64Go fuel (l.drop 64)

/-- Split a byte list into 64-byte chunks. -/
def chunks64 (l : List Nat) : List (List Nat) :=
  chunks64Go (l.length / 64 + 1) l

/-- The MD5 state after digesting a byte list. -/
def md5Digest (msg : List Nat) : Nat × Nat × Nat × Nat :=
  (chunks64 (md5Pad msg)).foldl md5ProcessChunk (1732584193, 4023233417, 2562383102, 271733878)

/-- Lower-case hexadecimal digit. -/
def hexLower (n : Nat) : Char :=
  if n < 10 then Char.ofNat ('0'.toNat + n) else Char.ofNat ('a'.toNat + n - 10)

/-- Two lower-case hex digits of a byte. -/
def byteToHex (b : Nat) : List Char := [hexLower (b / 16), hexLower (b % 16)]

/-- The 16 digest bytes (little-endian words a, b, c, d). -/
def md5DigestBytes (msg : List Nat) : List Nat :=
  let d := md5Digest msg
  leBytes d.1 4 ++ leBytes d.2.1 4 ++ leBytes d.2.2.1 4 ++ leBytes d.2.2.2 4

/-- The 32-character lower-case hex digest (`digest('hex')`). -/
def md5Hex (msg : List Nat) : List Char :=
  ((md5DigestBytes msg).map byteToHex).flatten

/-- MD5 hex digest of a JavaScript string (UTF-8 encoded, as Node's
`update(string)` does). -/
def md5HexOfString (s : List Char) : List Char :=
  md5Hex ((s.map utf8EncodeChar).flatten)

set_option maxRecDepth 100000 in
/-- The MD5 model against the reference vectors `md5("abc")` and
`md5("")`. -/
theorem md5_reference_vectors :
    md5HexOfString (strL "abc") = strL "900150983cd24fb0d6963f7d28e17f72" ∧
    md5HexOfString (strL "") = strL "d41d8cd98f00b204e9800998ecf8427e" := by
  constructor <;> rfl

/-! ## The media URL regular expression and `getMediaBase`
(mwoffliner.js 224, 1746-1749, 1887-1918)

`mediaRegex = /^(.*\/)([^\/]+)(\/)(\d+px-|)(.+?)(\.[A-Za-z0-9]{2,6}|)(\.[A-Za-z0-9]{2,6}|)$/`.
The matcher below implements exactly this anchored pattern with the
backtracking preference order of the JavaScript engine: greedy `.*` and
`[^\/]+` and `\d+` try longest first, the lazy `.+?` shortest first, each
alternation tries its non-empty branch first, `{2,6}` tries 6 repetitions
down to 2. -/

/-- All decompositions `s = a ++ b`, by ascending length of `a`. -/
def splitsAsc : List Char → List (List Char × List Char)
  | [] => [([], [])]
  | c :: rest => ([], c :: rest) :: (splitsAsc rest).map (fun p => (c :: p.1, p.2))

/-- All decompositions `s = a ++ b`, by descending length of `a` (greedy
order). -/
def splitsDesc (s : List Char) : List (List Char × List Char) :=
  (splitsAsc s).reverse

/-- Character class `[A-Za-z0-9]` of the extension groups. -/
def isExtChar (c : Char) : Bool :=
  ('A' ≤ c && c ≤ 'Z') || ('a' ≤ c && c ≤ 'z') || ('0' ≤ c && c ≤ '9')

/-- Candidates for one extension group `(\.[A-Za-z0-9]{2,6}|)` at the head of
`s`, in engine preference order: a dot followed by 6 down to 2 extension
characters, then the empty branch. -/
def extCandidates (s : List Char) : List (List Char × List Char) :=
  (match s with
   | '.' :: rest =>
     [6, 5, 4, 3, 2].filterMap (fun k =>
       let chunk := rest.take k
       if chunk.length = k && chunk.all isExtChar then some ('.' :: chunk, rest.drop k)
       else none)
   | _ => []) ++ [([], s)]

/-- Candidates for the scaled-width group `(\d+px-|)` at the head of `s`, in
engine preference order: the longest digit run followed by `px-` first, then
shorter runs, then the empty branch. -/
def pxCandidates (s : List Char) : List (List Char × List Char) :=
  ((List.range (s.takeWhile isDigitChar).length).reverse.filterMap (fun i =>
    let k := i + 1
    let rest := s.drop k
    if rest.take 3 = strL "px-" then some (s.take k ++ strL "px-", rest.drop (3 : Nat))
    else none)) ++ [([], s)]

/-- The captures of a successful `mediaRegex.exec` (group 3 is always the
literal slash and is omitted). -/
structure MediaParts where
  g1 : List Char
  g2 : List Char
  g4 : List Char
  g5 : List Char
  g6 : List Char
  g7 : List Char
deriving DecidableEq

/-- Backtracking matcher for `mediaRegex`, returning the captures of the
match the JavaScript engine finds, `none` when the pattern does not match. -/
def mediaRegexExec (s : List Char) : Option MediaParts :=
  (splitsDesc s).findSome? (fun p1 =>
    if p1.1.getLast? = some '/' then
      (splitsDesc p1.2).findSome? (fun p2 =>
        if p2.1 ≠ [] ∧ p2.1.all (fun c => c != '/') then
          match p2.2 with
          | '/' :: r3 =>
            (pxCandidates r3).findSome? (fun p4 =>
              ((splitsAsc p4.2).filter (fun p => p.1 ≠ [])).findSome? (fun p5 =>
                (extCandidates p5.2).findSome? (fun p6 =>
                  (extCandidates p6.2).findSome? (fun p7 =>
                    if p7.2 = [] then
                      some ⟨p1.1, p2.1, p4.1, p5.1, p6.1, p7.1⟩
                    else none))))
          | _ => none
        else none)
    else none)

/-- `parts[5] + (parts[6] || ".svg") + (parts[7] || '')`. -/
def mediaSecondVariant (p : MediaParts) : List Char :=
  p.g5 ++ (if p.g6 = [] then strL ".svg" else p.g6) ++ p.g7

/-- The `INFINITY_WIDTH` constant (mwoffliner.js 251). -/
def INFINITY_WIDTH : Nat := 9999999

/-- The global replace removing every occurrence of the three characters
`p`, `x`, dash (group 4's scaled-width marker). -/
def stripPxDash : List Char → List Char
  | 'p' :: 'x' :: '-' :: rest => stripPxDash rest
  | c :: rest => c :: stripPxDash rest
  | [] => []

/-- `parseInt` on the digit-run strings produced by group 4: leading white
space is skipped and the leading digit run is the value; no digits is NaN
(`none`). -/
def jsParseInt (s : List Char) : Option Nat :=
  let t := s.dropWhile jsSpaceChar
  let ds := t.takeWhile isDigitChar
  if ds = [] then none else some (natOfDigits ds)

/-- The requested width (mwoffliner.js 1749): `parseInt` of group 4 with the
`px` dash marker removed; NaN and 0 are falsy and give `INFINITY_WIDTH`. -/
def mediaWidth (p : MediaParts) : Nat :=
  match jsParseInt (stripPxDash p.g4) with
  | some n => if n = 0 then INFINITY_WIDTH else n
  | none => INFINITY_WIDTH

/-- `filenameBase` as computed by `downloadFileAndCache` (mwoffliner.js 1748):
`parts[2].length > parts[5].length ? parts[2] : parts[5] + (parts[6] || ".svg")
+ (parts[7] || '')`. -/
def mediaFilenameBase (p : MediaParts) : List Char :=
  if p.g5.length < p.g2.length then p.g2 else mediaSecondVariant p

/-- `getBinarySize` of utf8-binary-cutter (an external library):
the UTF-8 byte length. -/
def getBinarySize (s : List Char) : Nat :=
  ((s.map utf8EncodeChar).flatten).length

/-- Modelled from the utf8-binary-cutter contract (an external library):
truncate a string to at most `maxB` UTF-8 bytes without splitting a
character; the model keeps the longest such prefix.  (The library may also
replace the kept tail by dots; that variant has the same binary size on the
ASCII inputs of the theorems below and never exceeds `maxB`.) -/
def truncateToBinarySize : List Char → Nat → List Char
  | [], _ => []
  | c :: rest, b =>
    if (utf8EncodeChar c).length ≤ b then c :: truncateToBinarySize rest (b - (utf8EncodeChar c).length)
    else []

/-- Model of Node `pathParser.extname` (an external library): the substring
of the part after the last slash from its last dot, empty when there is no
dot or the dot is the leading character. -/
def extnameModel (s : List Char) : List Char :=
  let base := (s.reverse.takeWhile (fun c => c != '/')).reverse
  let revPre := base.reverse.takeWhile (fun c => c != '.')
  if revPre.length = base.length then []
  else if revPre.length + 1 = base.length then []
  else '.' :: revPre.reverse

/-- The truncation block of `getMediaBase` (mwoffliner.js 1911-1915), applied
when the filename exceeds 249 UTF-8 bytes: `ext` is the extension without its
dot, `basename` drops `ext.length + 1` trailing characters, and the result is
the basename cut to `239 - ext.length` bytes followed by the first two hex
characters of `MD5(basename)`, a dot and the extension. -/
def truncateFilename (filename : List Char) : List Char :=
  let ext := (extnameModel filename).drop 1
  let basename := filename.take (filename.length - ext.length - 1)
  truncateToBinarySize basename (239 - ext.length) ++
    (md5HexOfString basename).take 2 ++ '.' :: ext

/-- The decoded filename `getMediaBase` derives before the size check
(mwoffliner.js 1905-1908): the longer of `parts[2]` and
`parts[5] + (parts[6] || ".svg") + (parts[7] || '')`, URL-decoded.  The two
failure modes are distinct: the outer `none` is the URIError that `decodeURI`
(mwoffliner.js 1890) throws out of `getMediaBase` — it propagates uncaught
and the process exits 42 — while `some none` is the regex non-match, on
which `getMediaBase` returns `undefined`. -/
def mediaFilenameRaw (url : List Char) : Option (Option (List Char)) :=
  (jsDecodeURI url).map (fun du =>
    (mediaRegexExec du).map (fun p =>
      myDecodeURIComponent
        (if (mediaSecondVariant p).length < p.g2.length then p.g2 else mediaSecondVariant p)))

/-- The filename after the 249-byte check and, when needed, truncation
(mwoffliner.js 1911-1915); failure modes as in `mediaFilenameRaw`. -/
def mediaFilename (url : List Char) : Option (Option (List Char)) :=
  (mediaFilenameRaw url).map (Option.map (fun f =>
    if 249 < getBinarySize f then truncateFilename f else f))

/-- Characters `encodeURIComponent` leaves unescaped. -/
def uriUnreservedChar (c : Char) : Bool :=
  ('A' ≤ c && c ≤ 'Z') || ('a' ≤ c && c ≤ 'z') || ('0' ≤ c && c ≤ '9') ||
  c = '-' || c = '_' || c = '.' || c = '!' || c = '~' || c = '*' || c = '\'' ||
  c = '(' || c = ')'

/-- Model of ECMAScript `encodeURIComponent`. -/
def encodeURIComponentModel (s : List Char) : List Char :=
  (s.map (fun c =>
    if uriUnreservedChar c then [c]
    else ((utf8EncodeChar c).map pctEncodeByte).flatten)).flatten

/-- Translation of `getMediaBase(url, escape)` (mwoffliner.js 1887-1918):
the outer `none` is the URIError thrown by `decodeURI` at mwoffliner.js
1890, which propagates to the caller (uncaught, the process exits 42);
`some none` is the `undefined` return when the regex does not match;
otherwise `mediaDirectory + '/' + e(filename)` with `mediaDirectory = 'm'`. -/
def getMediaBase (url : List Char) (escape : Bool) : Option (Option (List Char)) :=
  (mediaFilename url).map (Option.map (fun f =>
    strL "m" ++ '/' :: (if escape then encodeURIComponentModel f else f)))

/-- `getMediaUrl(url) = getMediaBase(url, true)` (mwoffliner.js 1878-1880). -/
def getMediaUrl (url : List Char) : Option (Option (List Char)) :=
  getMediaBase url true

set_option maxRecDepth 100000 in
/-- The regex matcher on the spec's shapes: a plain upload URL and a
width-scaled thumbnail URL. -/
theorem mediaRegexExec_examples :
    mediaRegexExec (strL "https://up.wm.org/c/Foo.png/120px-Foo.png") =
      some ⟨strL "https://up.wm.org/c/", strL "Foo.png", strL "120px-",
        strL "Foo", strL ".png", []⟩ ∧
    mediaRegexExec (strL "https://up.wm.org/c/x/Bar.svg") =
      some ⟨strL "https://up.wm.org/c/", strL "x", [], strL "Bar",
        strL ".svg", []⟩ := by
  constructor <;> rfl

/-- Binary size of a cons. -/
theorem getBinarySize_cons (c : Char) (l : List Char) :
    getBinarySize (c :: l) = (utf8EncodeChar c).length + getBinarySize l := by
  simp [getBinarySize]

/-- Binary size of an append. -/
theorem getBinarySize_append (a b : List Char) :
    getBinarySize (a ++ b) = getBinarySize a + getBinarySize b := by
  simp [getBinarySize]

/-- An ASCII character is one UTF-8 byte. -/
theorem utf8EncodeChar_length_ascii {c : Char} (h : c.toNat < 128) :
    (utf8EncodeChar c).length = 1 := by
  simp [utf8EncodeChar, h]

/-- An ASCII string's binary size is its length. -/
theorem getBinarySize_ascii {l : List Char} (h : ∀ c ∈ l, c.toNat < 128) :
    getBinarySize l = l.length := by
  induction l with
  | nil => rfl
  | cons c t ih =>
    rw [getBinarySize_cons, utf8EncodeChar_length_ascii (h c (by simp)),
      ih (fun x hx => h x (by simp [hx]))]
    simp [Nat.add_comm]

/-- The truncation respects its byte budget. -/
theorem truncateToBinarySize_le (s : List Char) : ∀ n, getBinarySize (truncateToBinarySize s n) ≤ n := by
  induction s with
  | nil => intro n; simp [truncateToBinarySize, getBinarySize]
  | cons c t ih =>
    intro n
    by_cases h : (utf8EncodeChar c).length ≤ n
    · rw [truncateToBinarySize, if_pos h, getBinarySize_cons]
      have := ih (n - (utf8EncodeChar c).length)
      omega
    · rw [truncateToBinarySize, if_neg h]
      simp [getBinarySize]

/-- On an ASCII string at least as large as the budget the truncation uses the
budget exactly. -/
theorem truncateToBinarySize_ascii_eq (s : List Char) :
    ∀ n, (∀ c ∈ s, c.toNat < 128) → n ≤ getBinarySize s →
      getBinarySize (truncateToBinarySize s n) = n := by
  induction s with
  | nil =>
    intro n _ hn
    simp [getBinarySize] at hn
    simp [truncateToBinarySize, getBinarySize, hn]
  | cons c t ih =>
    intro n hA hn
    have hc1 : (utf8EncodeChar c).length = 1 := utf8EncodeChar_length_ascii (hA c (by simp))
    by_cases h0 : n = 0
    · subst h0
      rw [truncateToBinarySize]
      rw [hc1]
      simp [getBinarySize]
    · have hle : (utf8EncodeChar c).length ≤ n := by omega
      rw [truncateToBinarySize, if_pos hle, getBinarySize_cons, hc1]
      rw [getBinarySize_cons, hc1] at hn
      rw [ih (n - 1) (fun x hx => hA x (by simp [hx])) (by omega)]
      omega

/-- The first two characters of an MD5 hex digest, explicitly: the two hex
digits of the first digest byte. -/
theorem md5HexOfString_take_two (s : List Char) :
    (md5HexOfString s).take 2 =
      [hexLower ((md5Digest ((s.map utf8EncodeChar).flatten)).1 % 256 / 16),
       hexLower ((md5Digest ((s.map utf8EncodeChar).flatten)).1 % 256 % 16)] := rfl

/-- A hex digit character is one UTF-8 byte. -/
theorem utf8EncodeChar_length_hexLower (m : Nat) (h : m < 16) :
    (utf8EncodeChar (hexLower m)).length = 1 := by
  interval_cases m <;> decide

/-- The two-character MD5 suffix always contributes exactly two bytes. -/
theorem md5HexPrefix_size (s : List Char) :
    getBinarySize ((md5HexOfString s).take 2) = 2 := by
  rw [md5HexOfString_take_two]
  rw [show ∀ a b : Char, getBinarySize [a, b] =
      (utf8EncodeChar a).length + (utf8EncodeChar b).length from
    fun a b => by simp [getBinarySize]]
  rw [utf8EncodeChar_length_hexLower _ (by omega), utf8EncodeChar_length_hexLower _ (by omega)]

/-- C4 (amended): for every media URL whose derived filename exceeds 249
UTF-8 bytes (and whose extracted extension is ASCII of at most 6 bytes, the
shape the media regex produces), the truncated filename is at most 242 bytes
— not 250: at most `239 - ext` bytes of base plus 2 hex characters plus the
dot plus the extension — and exactly 242 bytes when the filename is ASCII. -/
theorem getMediaBase_truncation_bound (url f : List Char)
    (hf : mediaFilenameRaw url = some (some f))
    (h249 : 249 < getBinarySize f)
    (hextLen : ((extnameModel f).drop 1).length ≤ 6)
    (hextAscii : ∀ c ∈ (extnameModel f).drop 1, c.toNat < 128) :
    mediaFilename url = some (some (truncateFilename f)) ∧
    getBinarySize (truncateFilename f) ≤ 242 ∧
    ((∀ c ∈ f, c.toNat < 128) → getBinarySize (truncateFilename f) = 242) := by
  refine ⟨by simp [mediaFilename, hf, h249], ?_, ?_⟩
  · rw [truncateFilename, getBinarySize_append, getBinarySize_append, getBinarySize_cons,
      md5HexPrefix_size, utf8EncodeChar_length_ascii (by decide),
      getBinarySize_ascii hextAscii]
    have ht := truncateToBinarySize_le
      (f.take (f.length - ((extnameModel f).drop 1).length - 1))
      (239 - ((extnameModel f).drop 1).length)
    omega
  · intro hA
    have hbase : ∀ c ∈ f.take (f.length - ((extnameModel f).drop 1).length - 1),
        c.toNat < 128 := fun c hc => hA c (List.take_subset _ _ hc)
    have hflen : getBinarySize f = f.length := getBinarySize_ascii hA
    have hbaselen : (f.take (f.length - ((extnameModel f).drop 1).length - 1)).length =
        f.length - ((extnameModel f).drop 1).length - 1 := by
      rw [List.length_take]
      omega
    have hbsize : getBinarySize (f.take (f.length - ((extnameModel f).drop 1).length - 1)) =
        f.length - ((extnameModel f).drop 1).length - 1 := by
      rw [getBinarySize_ascii hbase, hbaselen]
    rw [truncateFilename, getBinarySize_append, getBinarySize_append, getBinarySize_cons,
      md5HexPrefix_size, utf8EncodeChar_length_ascii (by decide),
      getBinarySize_ascii hextAscii]
    rw [truncateToBinarySize_ascii_eq _ _ hbase (by omega)]
    omega

set_option maxRecDepth 400000 in
/-- C4 counterexample: the media URL `https://a/b/` + 248 `a`s + `.jpg`
derives a 252-byte filename (over the 249-byte limit); the truncation
produces a 242-byte output — 236 bytes of base + 2 hex characters + dot +
3-byte extension — not the claimed exactly-250-byte output. -/
theorem mediaFilename_counterexample :
    (mediaFilenameRaw (strL "https://a/b/" ++ List.replicate 248 'a' ++ strL ".jpg")).map
      (Option.map getBinarySize) = some (some 252) ∧
    (mediaFilename (strL "https://a/b/" ++ List.replicate 248 'a' ++ strL ".jpg")).map
      (Option.map getBinarySize) = some (some 242) ∧
    (242 : Nat) ≠ 250 := by
  refine ⟨by rfl, by rfl, by decide⟩

set_option maxRecDepth 400000 in
/-- C4 witness: the amended bound applied to the 252-byte filename derived
from the concrete URL of the counterexample; the output is exactly 242
bytes. -/
theorem getMediaBase_truncation_bound_witness :
    getBinarySize (truncateFilename (List.replicate 248 'a' ++ strL ".jpg")) = 242 :=
  (getMediaBase_truncation_bound
      (strL "https://a/b/" ++ List.replicate 248 'a' ++ strL ".jpg")
      (List.replicate 248 'a' ++ strL ".jpg")
      (by rfl) (by decide) (by decide) (by decide)).2.2 (by decide)

/-! ## Media download dedup (`downloadFileAndCache`, mwoffliner.js 1746-1848)

The run state kept per media `filenameBase`: the width recorded in the redis
media database, the width stored in the disk-cache header file (the cache
path is derived injectively from the base, so the cache is keyed by the base
here), and the cached-media-to-check database.  Redis and disk never fail in
the model; a redis/write failure exits the process in the source. -/

/-- Association-list lookup (model of `hget` / reading the header file). -/
def alookup (m : List (List Char × Nat)) (k : List Char) : Option Nat :=
  (m.find? (fun e => decide (e.1 = k))).map (fun e => e.2)

/-- Association-list update (model of `hset` / writing the header file). -/
def aset (m : List (List Char × Nat)) (k : List Char) (v : Nat) : List (List Char × Nat) :=
  if m.any (fun e => decide (e.1 = k)) then
    m.map (fun e => if e.1 = k then (k, v) else e)
  else m ++ [(k, v)]

/-- Association-list removal (model of `hdel`). -/
def adel (m : List (List Char × Nat)) (k : List Char) : List (List Char × Nat) :=
  m.filter (fun e => decide (e.1 ≠ k))

/-- Run state of the media subsystem for one dump. -/
structure MediaState where
  redisMedia : List (List Char × Nat)
  cacheWidth : List (List Char × Nat)
  checkDb : List (List Char × Nat)
deriving DecidableEq

/-- Observable effects of one `downloadFileAndCache` call. -/
structure MediaEffects where
  httpDownload : Bool
  cacheWrite : Bool
  symlink : Bool
  callbackCount : Nat
deriving DecidableEq

/-- The download branch shared by the cache-miss and stale-cache paths:
`downloadFile` fetches over HTTP, the body is written to the cache path, the
headers `{width}` next to it, and the media path is symlinked. -/
def mediaDownloadStep (st : MediaState) (filenameBase : List Char) (width : Nat) :
    MediaState × MediaEffects :=
  ({ st with cacheWidth := aset st.cacheWidth filenameBase width },
   ⟨true, true, true, 1⟩)

/-- Translation of `downloadFileAndCache(url, callback)` (mwoffliner.js
1746-1848).  `none` models the uncaught exception when `decodeURI` throws or
the regex does not match (`parts[2]` of `null`).  Otherwise: if the recorded
width is at least the requested one, only the callback runs; else the new
width is recorded (write-before-download) and either the cache entry is
symlinked (updating the to-check database) or the file is downloaded and
cached. -/
def downloadFileAndCache (st : MediaState) (url : List Char) :
    Option (MediaState × MediaEffects) :=
  (jsDecodeURI url).bind (fun du =>
    (mediaRegexExec du).map (fun p =>
      let filenameBase := mediaFilenameBase p
      let width := mediaWidth p
      match alookup st.redisMedia filenameBase with
      | some r =>
        if r < width then
          let st1 := { st with redisMedia := aset st.redisMedia filenameBase width }
          match alookup st1.cacheWidth filenameBase with
          | some cw =>
            if cw < width then mediaDownloadStep st1 filenameBase width
            else
              let st2 :=
                if cw = width then { st1 with checkDb := adel st1.checkDb filenameBase }
                else { st1 with checkDb := aset st1.checkDb filenameBase width }
              (st2, ⟨false, false, true, 1⟩)
          | none => mediaDownloadStep st1 filenameBase width
        else (st, ⟨false, false, false, 1⟩)
      | none =>
        let st1 := { st with redisMedia := aset st.redisMedia filenameBase width }
        match alookup st1.cacheWidth filenameBase with
        | some cw =>
          if cw < width then mediaDownloadStep st1 filenameBase width
          else
            let st2 :=
              if cw = width then { st1 with checkDb := adel st1.checkDb filenameBase }
              else { st1 with checkDb := aset st1.checkDb filenameBase width }
            (st2, ⟨false, false, true, 1⟩)
        | none => mediaDownloadStep st1 filenameBase width))

/-- A sequence of media requests, threading the run state. -/
def runMedia : MediaState → List (List Char) → Option (MediaState × List MediaEffects)
  | st, [] => some (st, [])
  | st, u :: us =>
    (downloadFileAndCache st u).bind (fun r =>
      (runMedia r.1 us).map (fun r2 => (r2.1, r.2 :: r2.2)))

/-- Number of HTTP downloads in a list of effects. -/
def countDownloads (effs : List MediaEffects) : Nat :=
  (effs.filter (fun e => e.httpDownload)).length

/-- The empty run state. -/
def emptyMediaState : MediaState := ⟨[], [], []⟩

set_option maxRecDepth 100000 in
/-- C2 counterexample: in a fresh run, requesting the same base at width 120
and then at width 300 performs two HTTP downloads (first at 120, then at
300), not the claimed exactly one: the skip applies only against widths
already recorded, so order matters. -/
theorem downloadFileAndCache_counterexample :
    (runMedia emptyMediaState
        [strL "https://up.wm.org/c/Foo.png/120px-Foo.png",
         strL "https://up.wm.org/c/Foo.png/300px-Foo.png"]).map
      (fun r => countDownloads r.2) = some 2 ∧
    (2 : Nat) ≠ 1 := by
  refine ⟨by rfl, by decide⟩

set_option maxRecDepth 100000 in
/-- C2 (amended): when `downloadFileAndCache` is invoked for a URL whose
parsed width is at most the width already recorded for that `filenameBase`,
it performs no HTTP request, no cache write and no symlink, leaves the run
state unchanged and invokes its callback exactly once; consequently two
requests at widths 300 then 120 (largest first) cause exactly one download,
at width 300 — but in the opposite order both widths are downloaded. -/
theorem downloadFileAndCache_skip_spec :
    (∀ (st : MediaState) (url du : List Char) (p : MediaParts) (r : Nat),
      jsDecodeURI url = some du →
      mediaRegexExec du = some p →
      alookup st.redisMedia (mediaFilenameBase p) = some r →
      mediaWidth p ≤ r →
      downloadFileAndCache st url = some (st, ⟨false, false, false, 1⟩)) ∧
    (runMedia emptyMediaState
        [strL "https://up.wm.org/c/Foo.png/300px-Foo.png",
         strL "https://up.wm.org/c/Foo.png/120px-Foo.png"]).map
      (fun r => countDownloads r.2) = some 1 := by
  constructor
  · intro st url du p r hdu hp hr hw
    have hnot : ¬ r < mediaWidth p := by omega
    simp [downloadFileAndCache, hdu, hp, hr, hnot]
  · rfl

set_option maxRecDepth 100000 in
/-- C2 witness: with width 300 recorded for `Foo.png`, a request at width 120
leaves the state untouched and only calls back. -/
theorem downloadFileAndCache_skip_spec_witness :
    downloadFileAndCache ⟨[(strL "Foo.png", 300)], [(strL "Foo.png", 300)], []⟩
      (strL "https://up.wm.org/c/Foo.png/120px-Foo.png") =
      some (⟨[(strL "Foo.png", 300)], [(strL "Foo.png", 300)], []⟩,
        ⟨false, false, false, 1⟩) :=
  downloadFileAndCache_skip_spec.1
    ⟨[(strL "Foo.png", 300)], [(strL "Foo.png", 300)], []⟩
    (strL "https://up.wm.org/c/Foo.png/120px-Foo.png")
    (strL "https://up.wm.org/c/Foo.png/120px-Foo.png")
    ⟨strL "https://up.wm.org/c/", strL "Foo.png", strL "120px-", strL "Foo",
      strL ".png", []⟩ 300 (by rfl) (by rfl) (by rfl) (by decide)

/-! ## The section DOM (domino, used by `transformSection` and helpers,
mwoffliner.js 950-1169)

The DOM is a tree of element and text nodes; elements are addressed by paths
(child indices from the root).  Following the DOM standard implemented by the
domino library, `getElementsByTagName` and `getElementsByClassName` are live
collections: the source loops re-read `imgs.length` and `imgs[i]` after every
mutation, which the model renders by re-collecting the matching paths (in
tree order) on each iteration. -/

mutual
/-- A DOM node: an element with tag, attributes and children, or a text
node.  Tags and attribute names are stored in canonical lower case. -/
inductive DNode where
  | elem (tag : String) (attrs : List (String × List Char)) (children : DNodeList)
  | text (ts : List Char)
/-- A list of sibling DOM nodes (a separate inductive so that all tree
recursions are structural). -/
inductive DNodeList where
  | nil
  | cons (hd : DNode) (tl : DNodeList)
end

/-- Build a sibling list from a `List`. -/
def listToForest : List DNode → DNodeList
  | [] => DNodeList.nil
  | n :: rest => DNodeList.cons n (listToForest rest)

mutual
/-- Number of nodes of a tree (used as loop fuel: mutations never add
nodes). -/
def nodeCount : DNode → Nat
  | DNode.elem _ _ cs => 1 + nodeCountForest cs
  | DNode.text _ => 1
/-- Number of nodes of a sibling list. -/
def nodeCountForest : DNodeList → Nat
  | DNodeList.nil => 0
  | DNodeList.cons h t => nodeCount h + nodeCountForest t
end

/-- Child at an index. -/
def forestGet : DNodeList → Nat → Option DNode
  | DNodeList.nil, _ => none
  | DNodeList.cons h _, 0 => some h
  | DNodeList.cons _ t, n + 1 => forestGet t n

/-- Replace the child at an index. -/
def forestSet : DNodeList → Nat → DNode → DNodeList
  | DNodeList.nil, _, _ => DNodeList.nil
  | DNodeList.cons _ t, 0, n => DNodeList.cons n t
  | DNodeList.cons h t, i + 1, n => DNodeList.cons h (forestSet t i n)

/-- Remove the child at an index (`removeChild`; later siblings shift). -/
def forestRemove : DNodeList → Nat → DNodeList
  | DNodeList.nil, _ => DNodeList.nil
  | DNodeList.cons _ t, 0 => t
  | DNodeList.cons h t, i + 1 => DNodeList.cons h (forestRemove t i)

/-- Node at a path. -/
def getAt : DNode → List Nat → Option DNode
  | n, [] => some n
  | DNode.elem _ _ cs, i :: p =>
    match forestGet cs i with
    | some c => getAt c p
    | none => none
  | DNode.text _, _ :: _ => none

/-- Replace the subtree at a path. -/
def setAt : DNode → List Nat → DNode → DNode
  | _, [], n => n
  | DNode.elem t a cs, i :: p, n =>
    DNode.elem t a
      (match forestGet cs i with
       | some c => forestSet cs i (setAt c p n)
       | none => cs)
  | DNode.text ts, _ :: _, _ => DNode.text ts

/-- Remove the node at a (nonempty) path from its parent. -/
def removeAt : DNode → List Nat → DNode
  | n, [] => n
  | DNode.text ts, _ :: _ => DNode.text ts
  | DNode.elem t a cs, [i] => DNode.elem t a (forestRemove cs i)
  | DNode.elem t a cs, i :: j :: p =>
    DNode.elem t a
      (match forestGet cs i with
       | some c => forestSet cs i (removeAt c (j :: p))
       | none => cs)

mutual
/-- Paths of the elements with a tag, in tree (pre-)order —
`getElementsByTagName` re-evaluated on the current tree. -/
def collectTag (tag : String) : DNode → List (List Nat)
  | DNode.elem t _ cs => (if t = tag then [([] : List Nat)] else []) ++ collectTagForest tag cs 0
  | DNode.text _ => []
/-- Tag collection over a sibling list starting at child index `i`. -/
def collectTagForest (tag : String) : DNodeList → Nat → List (List Nat)
  | DNodeList.nil, _ => []
  | DNodeList.cons h tl, i =>
    (collectTag tag h).map (fun p => i :: p) ++ collectTagForest tag tl (i + 1)
end

/-- Attribute lookup (`getAttribute`; `none` is the null result). -/
def getAttr (attrs : List (String × List Char)) (name : String) : Option (List Char) :=
  (attrs.find? (fun e => decide (e.1 = name))).map (fun e => e.2)

/-- Attribute update (`setAttribute`: replace in place, or append). -/
def setAttr (attrs : List (String × List Char)) (name : String) (v : List Char) :
    List (String × List Char) :=
  if attrs.any (fun e => decide (e.1 = name)) then
    attrs.map (fun e => if e.1 = name then (name, v) else e)
  else attrs ++ [(name, v)]

/-- Attribute removal (`removeAttribute`). -/
def removeAttr (attrs : List (String × List Char)) (name : String) :
    List (String × List Char) :=
  attrs.filter (fun e => decide (e.1 ≠ name))

/-- White space splitting of a `class` attribute into tokens. -/
def classTokens (s : List Char) : List (List Char) :=
  let r := s.foldr (fun c acc =>
    if c = ' ' ∨ c = '\t' ∨ c = '\n' ∨ c = '\r' then
      (([] : List Char), if acc.1 = [] then acc.2 else acc.1 :: acc.2)
    else (c :: acc.1, acc.2)) (([] : List Char), ([] : List (List Char)))
  if r.1 = [] then r.2 else r.1 :: r.2

/-- Does an element's `class` attribute contain a token
(`getElementsByClassName` membership)? -/
def hasClassToken (attrs : List (String × List Char)) (cls : List Char) : Bool :=
  match getAttr attrs "class" with
  | some v => (classTokens v).any (fun t => decide (t = cls))
  | none => false

mutual
/-- Paths of the elements carrying a class token, in tree order —
`getElementsByClassName` re-evaluated on the current tree. -/
def collectClass (cls : List Char) : DNode → List (List Nat)
  | DNode.elem _ attrs cs =>
    (if hasClassToken attrs cls then [([] : List Nat)] else []) ++ collectClassForest cls cs 0
  | DNode.text _ => []
/-- Class collection over a sibling list starting at child index `i`. -/
def collectClassForest (cls : List Char) : DNodeList → Nat → List (List Nat)
  | DNodeList.nil, _ => []
  | DNodeList.cons h tl, i =>
    (collectClass cls h).map (fun p => i :: p) ++ collectClassForest cls tl (i + 1)
end

mutual
/-- Path of the first element (tree order) whose `id` attribute equals the
given value (`getElementById`). -/
def findIdPath (idv : List Char) : DNode → Option (List Nat)
  | DNode.elem _ attrs cs =>
    if getAttr attrs "id" = some idv then some []
    else findIdPathForest idv cs 0
  | DNode.text _ => none
/-- Id search over a sibling list starting at child index `i`. -/
def findIdPathForest (idv : List Char) : DNodeList → Nat → Option (List Nat)
  | DNodeList.nil, _ => none
  | DNodeList.cons h tl, i =>
    match findIdPath idv h with
    | some p => some (i :: p)
    | none => findIdPathForest idv tl (i + 1)
end

/-- Substring search (the JavaScript `String.prototype.search` of the source
with its literal pattern, and the host tests of `rewriteUrl`). -/
def containsSub (hay needle : List Char) : Bool :=
  (splitsAsc hay).any (fun p => needle.isPrefixOf p.2)

/-- Case-insensitive substring search (the `/…/i` host tests). -/
def containsSubCI (hay needle : List Char) : Bool :=
  containsSub (hay.map Char.toLower) (needle.map Char.toLower)

/-! ## The per-section rewriter (mwoffliner.js 950-1169) -/

/-- Run configuration and surrounding state the rewriter reads. -/
structure RewriteCtx where
  nopic : Bool
  webUrlPath : List Char
  webUrlHost : List Char
  articleList : Bool
  namespaces : List Char → Option Bool
  articleIds : List Char → Bool

/-- `replace(/ /g, '_')`. -/
def spacesToUnderscores (s : List Char) : List Char :=
  s.map (fun c => if c = ' ' then '_' else c)

/-- Translation of `isMirrored(id)` (mwoffliner.js 1247-1255): without an
article list, an id with a namespace prefix is mirrored iff that namespace
has content (when known); otherwise membership in the article-id map
decides. -/
def isMirrored (ctx : RewriteCtx) (id : List Char) : Bool :=
  if ¬ctx.articleList ∧ id ≠ [] ∧ id.any (fun c => c = ':') then
    match ctx.namespaces (spacesToUnderscores (id.takeWhile (fun c => c != ':'))) with
    | some isContent => isContent
    | none => ctx.articleIds id
  else ctx.articleIds id

/-- Does a URL start with a scheme (the legacy Node protocol pattern)? -/
def hasScheme (url : List Char) : Bool :=
  let pre := url.takeWhile schemeChar
  decide (pre ≠ []) && decide ((url.drop pre.length).head? = some ':')

/-- Translation of the one-argument `getFullUrl(url)` (mwoffliner.js
1543-1561): a URL with a scheme is returned unchanged; otherwise the default
protocol `http:` and the wiki host are prepended (modelled from the Node url
library contract for the URL shapes the rewriter meets: absolute URLs,
protocol-relative URLs and host-relative paths). -/
def getFullUrl (webUrlHost url : List Char) : List Char :=
  if hasScheme url then url
  else if url.take 2 = strL "//" then strL "http:" ++ url
  else strL "http://" ++ webUrlHost ++ url

/-- The `keepLink` test of the image handler: the link target extracted from
the enclosing anchor's href is truthy and mirrored. -/
def imgKeepLink (ctx : RewriteCtx) (href : List Char) : Bool :=
  match extractTargetIdFromHref ctx.webUrlPath href with
  | some t => decide (t ≠ []) && isMirrored ctx t
  | none => false

/-- The picture part of the keep condition (mwoffliner.js 967-970): without
`nopic` every image qualifies; with `nopic` only a math fallback image (class
search) or a math extension image (`typeof`). -/
def imgMathKeep (nopic : Bool) (attrs : List (String × List Char)) : Bool :=
  !nopic || containsSub ((getAttr attrs "class").getD []) (strL "mwe-math-fallback-image-inline") ||
    decide (getAttr attrs "typeof" = some (strL "mw:Extension/math"))

/-- The source part of the keep condition (mwoffliner.js 971-972): a truthy
`src` that does not start with `./Special:FilePath/`. -/
def imgSrcOk (attrs : List (String × List Char)) : Bool :=
  match getAttr attrs "src" with
  | some s => decide (s ≠ []) && !(strL "./Special:FilePath/").isPrefixOf s
  | none => false

/-- State threaded through the image pass: the tree, the per-pass `imgSrcCache`
dedup set, the downloads pushed on `downloadFileQueue`, and whether an
uncaught exception (the `decodeURI` URIError out of `getMediaBase`) has
unwound the pass — the process then exits 42 and nothing further runs. -/
structure TreatState where
  root : DNode
  srcCache : List (List Char)
  queue : List (List Char)
  crashed : Bool

/-- Translation of one iteration of the image loop (mwoffliner.js 963-1026)
on the image at path `p`: a kept image is unwrapped from a non-mirrored
enclosing link (`replaceChild`; when the link itself has no parent the image
is deleted instead), its source is resolved and — when a local media base is
derivable — rewritten, deduplicated and enqueued, with `resource` and
`srcset` removed; when `getMediaBase` returns `undefined` the image is
deleted, and when `decodeURI` throws inside it the exception unwinds (the
unwrap has already mutated the tree; the image is neither rewritten nor
deleted and the run crashes). -/
def processImg (ctx : RewriteCtx) (st : TreatState) (p : List Nat) : TreatState :=
  match getAt st.root p with
  | some (DNode.elem tg attrs cs) =>
    if imgMathKeep ctx.nopic attrs && imgSrcOk attrs then
      let parentPath := p.dropLast
      let rp : DNode × Option (List Nat) :=
        match getAt st.root parentPath with
        | some (DNode.elem "a" pattrs _) =>
          if imgKeepLink ctx ((getAttr pattrs "href").getD []) then (st.root, some p)
          else if parentPath = [] then (removeAt st.root p, none)
          else (setAt st.root parentPath (DNode.elem tg attrs cs), some parentPath)
        | _ => (st.root, some p)
      let src := getFullUrl ctx.webUrlHost ((getAttr attrs "src").getD [])
      match getMediaUrl src with
      | some (some newSrc) =>
        let seen := st.srcCache.any (fun x => decide (x = src))
        { root :=
            match rp.2 with
            | some ip => setAt rp.1 ip (DNode.elem tg
                (removeAttr (removeAttr (setAttr attrs "src" newSrc) "resource") "srcset") cs)
            | none => rp.1,
          srcCache := if seen then st.srcCache else src :: st.srcCache,
          queue := if seen then st.queue else st.queue ++ [src],
          crashed := st.crashed }
      | some none =>
        { root :=
            match rp.2 with
            | some ip => removeAt rp.1 ip
            | none => rp.1,
          srcCache := st.srcCache,
          queue := st.queue,
          crashed := st.crashed }
      | none =>
        { root := rp.1, srcCache := st.srcCache, queue := st.queue, crashed := true }
    else { root := removeAt st.root p, srcCache := st.srcCache, queue := st.queue,
           crashed := st.crashed }
  | _ => st

/-- The live-collection image loop: `imgs[i]` and `imgs.length` are re-read
from the current tree on every iteration (the fuel bounds iterations; it
starts at node count + 1, which the loop never reaches since the index grows
every round and the collection never exceeds the node count). -/
def imgLoopGo (ctx : RewriteCtx) : Nat → Nat → TreatState → TreatState
  | 0, _, st => st
  | fuel + 1, i, st =>
    if st.crashed then st
    else
      let ps := collectTag "img" st.root
      if i < ps.length then imgLoopGo ctx fuel (i + 1) (processImg ctx st (ps.getD i []))
      else st

/-- Translation of `treatMediaElementsForSection` (mwoffliner.js 958-1027). -/
def treatMediaElementsForSection (ctx : RewriteCtx) (root : DNode) : TreatState :=
  imgLoopGo ctx (nodeCount root + 1) 0 ⟨root, [], [], false⟩

/-- A live-collection deletion loop (the `for` loops over
`getElementsByTagName` / `getElementsByClassName` with `deleteNode`): the
element at the current index of the re-evaluated collection is deleted when
the condition holds. -/
def deleteLoopGo (collect : DNode → List (List Nat)) (cond : DNode → List Nat → Bool) :
    Nat → Nat → DNode → DNode
  | 0, _, r => r
  | fuel + 1, i, r =>
    let ps := collect r
    if i < ps.length then
      deleteLoopGo collect cond fuel (i + 1)
        (if cond r (ps.getD i []) then removeAt r (ps.getD i []) else r)
    else r

/-- A deletion loop with fuel node count + 1. -/
def deleteLoop (collect : DNode → List (List Nat)) (cond : DNode → List Nat → Bool)
    (r : DNode) : DNode :=
  deleteLoopGo collect cond (nodeCount r + 1) 0 r

/-- The `nopic` map-removal block of `applyOtherTreatments` (mwoffliner.js
1128-1134). -/
def deleteMapsIfNopic (ctx : RewriteCtx) (r : DNode) : DNode :=
  if ctx.nopic then deleteLoop (collectTag "map") (fun _ _ => true) r else r

/-- Has the subtree at `p` no `<a>` descendant
(`getElementsByTagName('a').length === 0`)? -/
def hasNoLink (r : DNode) (p : List Nat) : Bool :=
  match getAt r p with
  | some n => (collectTag "a" n).length = 0
  | none => false

/-- The id blacklist (mwoffliner.js 106). -/
def idBlackList : List (List Char) := [strL "purgelink"]

/-- The class blacklist (mwoffliner.js 94). -/
def cssClassBlackList : List (List Char) :=
  [strL "noprint", strL "metadata", strL "ambox", strL "stub", strL "topicon",
   strL "magnify", strL "navbar", strL "mwe-math-mathml-inline"]

/-- The link-conditional class blacklist (mwoffliner.js 97). -/
def cssClassBlackListIfNoLink : List (List Char) :=
  [strL "mainarticle", strL "seealso", strL "dablink", strL "rellink", strL "hatnote"]

/-- The forced-display class list (mwoffliner.js 100). -/
def cssClassDisplayList : List (List Char) := [strL "thumb"]

/-- Remove the `display` declaration from an inline style (model of
`style.removeProperty('display')` on domino's CSS declaration object; when no
`display` declaration is present the style is left textually unchanged). -/
def removeDisplayStyle (s : List Char) : List Char :=
  let decls := ((s.splitOn ';').map jsTrim).filter (fun d => d ≠ [])
  let isDisp := fun (d : List Char) => decide (jsTrim (d.takeWhile (fun c => c != ':')) = strL "display")
  if decls.any isDisp then
    List.intercalate (strL "; ") (decls.filter (fun d => !isDisp d))
  else s

/-- The forced-display loop (mwoffliner.js 1163-1168): clears the inline
`display` of every node carrying the class; the collection is live but the
loop deletes nothing. -/
def styleLoopGo (cls : List Char) : Nat → Nat → DNode → DNode
  | 0, _, r => r
  | fuel + 1, i, r =>
    let ps := collectClass cls r
    if i < ps.length then
      styleLoopGo cls fuel (i + 1)
        (match getAt r (ps.getD i []) with
         | some (DNode.elem t attrs cs) =>
           (match getAttr attrs "style" with
            | some sv => setAt r (ps.getD i [])
                (DNode.elem t (setAttr attrs "style" (removeDisplayStyle sv)) cs)
            | none => r)
         | _ => r)
    else r

/-- Translation of `applyOtherTreatments` (mwoffliner.js 1127-1169): map
removal under `nopic`, id blacklist, class blacklist, link-conditional class
blacklist, forced display.  (`deleteNode` on a root without parent erases it
via `outerHTML`; that branch is unreachable for section roots and the model
leaves the root in place.) -/
def applyOtherTreatments (ctx : RewriteCtx) (root : DNode) : DNode :=
  let r1 := deleteMapsIfNopic ctx root
  let r2 := idBlackList.foldl (fun r idv =>
    match findIdPath idv r with
    | some p => removeAt r p
    | none => r) r1
  let r3 := cssClassBlackList.foldl (fun r c =>
    deleteLoop (collectClass c) (fun _ _ => true) r) r2
  let r4 := cssClassBlackListIfNoLink.foldl (fun r c =>
    deleteLoop (collectClass c) hasNoLink r) r3
  cssClassDisplayList.foldl (fun r c => styleLoopGo c (nodeCount r + 1) 0 r) r4

/-- All values of a query-string key of an href (`urlParser.parse(href,
true).query[key]`, modelled from the Node querystring contract: split on `&`,
split each pair at the first `=`, plus-to-space and percent-decode with a
lenient fallback). -/
def queryVals (href key : List Char) : List (List Char) :=
  let q := (((href.dropWhile (fun c => c != '?')).drop 1).takeWhile (fun c => c != '#'))
  let dec := fun (s : List Char) =>
    myDecodeURIComponent (s.map (fun c => if c = '+' then ' ' else c))
  (q.splitOn '&').filterMap (fun kv =>
    if dec (kv.takeWhile (fun c => c != '=')) = key then
      some (dec ((kv.dropWhile (fun c => c != '=')).drop 1))
    else none)

/-- Model of `parseFloat`: value of the longest decimal prefix, NaN when
there is none. -/
def jsParseFloat (s : List Char) : JSNum :=
  let t := s.dropWhile jsSpaceChar
  let st : Int × List Char :=
    match t with
    | '-' :: r => (-1, r)
    | '+' :: r => (1, r)
    | _ => (1, t)
  let ip := st.2.takeWhile isDigitChar
  let r1 := st.2.drop ip.length
  let fr : List Char × List Char :=
    match r1 with
    | '.' :: r => (r.takeWhile isDigitChar, r.drop (r.takeWhile isDigitChar).length)
    | _ => ([], r1)
  if ip = [] ∧ fr.1 = [] then JSNum.nan
  else
    let e : Int :=
      match fr.2 with
      | c :: rest =>
        if c = 'e' ∨ c = 'E' then
          let sr : Int × List Char :=
            match rest with
            | '-' :: r => (-1, r)
            | '+' :: r => (1, r)
            | _ => (1, rest)
          let ds := sr.2.takeWhile isDigitChar
          if ds = [] then 0 else sr.1 * natOfDigits ds
        else 0
      | [] => 0
    JSNum.num (applyExp
      ⟨st.1 * ((natOfDigits ip : Int) * (10 : Int) ^ fr.1.length + (natOfDigits fr.1 : Int)),
       (10 : Int) ^ fr.1.length⟩ e)

/-- `parseFloat(query[key])`: undefined is NaN; an array is coerced to its
comma-joined string first. -/
def queryValFloat (href key : List Char) : JSNum :=
  match queryVals href key with
  | [] => JSNum.nan
  | [v] => jsParseFloat v
  | vs => jsParseFloat (List.intercalate [','] vs)

/-- The array scan of the geohack branch (mwoffliner.js 1049-1055): advance
while the entry is truthy and its first character is not numeric; the result
is the entry stopped at (`none` when the scan runs off the array). -/
def pickGeoParams : List (List Char) → Option (List Char)
  | [] => none
  | p :: ps =>
    match p with
    | [] => some []
    | c :: _ => if jsToNumber [c] = JSNum.nan then pickGeoParams ps else some p

/-- Decimal digits of a natural number. -/
def natToDigitsGo : Nat → Nat → List Char
  | 0, _ => []
  | fuel + 1, n =>
    if n < 10 then [Char.ofNat (48 + n)]
    else natToDigitsGo fuel (n / 10) ++ [Char.ofNat (48 + n % 10)]

/-- Decimal digit string of a natural number. -/
def natToDigits (n : Nat) : List Char := natToDigitsGo (n + 1) n

/-- Fractional decimal digits of `num / den` (`num < den`), stopping at an
exact expansion or after `fuel` digits. -/
def fracDigitsGo (den : Nat) : Nat → Nat → List Char
  | 0, _ => []
  | fuel + 1, num =>
    if num = 0 then [] else Char.ofNat (48 + num * 10 / den) :: fracDigitsGo den fuel (num * 10 % den)

/-- Decimal rendering of an exact rational: exact for terminating expansions
(the shapes the geo rewriting produces from decimal inputs); repeating
expansions are cut after 17 digits, approximating the shortest-double
printing of JavaScript. -/
def jsRatToString (q : JSRat) : List Char :=
  let neg := decide (q.nu < 0) != decide (q.de < 0)
  let na := q.nu.natAbs
  let da := q.de.natAbs
  (if neg && decide (na ≠ 0) then ['-'] else []) ++ natToDigits (na / da) ++
    (let fr := fracDigitsGo da 17 (na % da)
     if fr = [] then [] else '.' :: fr)

/-- String the rewriter concatenates after `geo:` for one coordinate. -/
def geoValRender : GeoVal → List Char
  | GeoVal.strv s => s
  | GeoVal.numv (JSNum.num q) => jsRatToString q
  | GeoVal.numv JSNum.nan => strL "NaN"

/-- Translation of `rewriteUrl(linkNode)` (mwoffliner.js 1031-1115) applied
to the node at path `p`: hrefs of geo-enabled hosts are parsed and, when both
coordinates are numbers, replaced by a `geo:` URI; every other link is left
intact (the general link-localisation block is commented out in the
source). -/
def rewriteUrlAt (root : DNode) (p : List Nat) : DNode :=
  match getAt root p with
  | some (DNode.elem t attrs cs) =>
    (match getAttr attrs "href" with
     | none => root
     | some href =>
       if href = [] then root
       else
         let latlon : Option (GeoVal × GeoVal) :=
           if containsSubCI href (strL "poimap2.php") then
             some (GeoVal.numv (queryValFloat href (strL "lat")),
               GeoVal.numv (queryValFloat href (strL "lon")))
           else if containsSubCI href (strL "geohack.php") then
             match queryVals href (strL "params") with
             | [] => none
             | [v] => geohackLatLonOfParams v
             | vs =>
               match pickGeoParams vs with
               | some pp => if pp = [] then none else geohackLatLonOfParams pp
               | none => none
           else none
         match latlon with
         | some ll =>
           if ¬geoValIsNaN ll.1 = true ∧ ¬geoValIsNaN ll.2 = true then
             setAt root p (DNode.elem t
               (setAttr attrs "href"
                 (strL "geo:" ++ geoValRender ll.1 ++ [','] ++ geoValRender ll.2)) cs)
           else root
         | none => root)
  | _ => root

/-- Translation of `rewriteUrls` (mwoffliner.js 1117-1125): the `<a>` and
`<area>` collections are copied into a plain array before the loop, so this
pass iterates over a snapshot (the rewrite mutates only attributes, never the
tree shape). -/
def rewriteUrls (root : DNode) : DNode :=
  (collectTag "a" root ++ collectTag "area" root).foldl rewriteUrlAt root

/-- Text escaping of the serializer. -/
def escapeTextChar (c : Char) : List Char :=
  if c = '&' then strL "&amp;"
  else if c = '<' then strL "&lt;"
  else if c = '>' then strL "&gt;"
  else if c.toNat = 160 then strL "&nbsp;"
  else [c]

/-- Serialize a text run. -/
def escapeText (s : List Char) : List Char := (s.map escapeTextChar).flatten

/-- Attribute-value escaping of the serializer. -/
def escapeAttrChar (c : Char) : List Char :=
  if c = '&' then strL "&amp;"
  else if c = '"' then strL "&quot;"
  else if c.toNat = 160 then strL "&nbsp;"
  else [c]

/-- Serialize an attribute value. -/
def escapeAttrVal (s : List Char) : List Char := (s.map escapeAttrChar).flatten

/-- The HTML void elements (serialized without a closing tag). -/
def voidTag (t : String) : Bool :=
  ["area", "base", "br", "col", "embed", "hr", "img", "input", "link", "meta",
   "param", "source", "track", "wbr"].any (fun x => decide (x = t))

mutual
/-- HTML serialization of a node (the standard serialization domino's
`innerHTML` produces: attributes in insertion order, double-quoted). -/
def serializeNode : DNode → List Char
  | DNode.text ts => escapeText ts
  | DNode.elem t attrs cs =>
    '<' :: (strL t ++
      ((attrs.map (fun a => ' ' :: (strL a.1 ++ '=' :: '"' :: (escapeAttrVal a.2 ++ ['"'])))).flatten) ++
      ['>']) ++
    (if voidTag t then [] else serializeForest cs ++ ('<' :: '/' :: (strL t ++ ['>'])))
/-- Serialization of a sibling list. -/
def serializeForest : DNodeList → List Char
  | DNodeList.nil => []
  | DNodeList.cons h t => serializeNode h ++ serializeForest t
end

/-- `dom.body.innerHTML`: the serialization of the root's children. -/
def innerHTML : DNode → List Char
  | DNode.elem _ _ cs => serializeForest cs
  | DNode.text ts => escapeText ts

/-- Result of one `transformSection` call; when `crashed` is set an uncaught
exception unwound the media pass (the process exits 42), the later passes
never ran and no `innerHTML` string is produced (the `html` field is then
empty and `root` records the tree at unwind time). -/
structure SectionResult where
  root : DNode
  html : List Char
  queue : List (List Char)
  crashed : Bool

/-- Translation of `transformSection(dom)` (mwoffliner.js 950-956): media
treatment, link rewriting, the other treatments, then the body's
`innerHTML`; an exception out of the media pass aborts the chain. -/
def transformSection (ctx : RewriteCtx) (doc : DNode) : SectionResult :=
  let st := treatMediaElementsForSection ctx doc
  if st.crashed then ⟨st.root, [], st.queue, true⟩
  else
    let r2 := rewriteUrls st.root
    let r3 := applyOtherTreatments ctx r2
    ⟨r3, innerHTML r3, st.queue, false⟩

/-- A run context without `nopic` (article-list mode off, empty maps). -/
def plainCtx : RewriteCtx :=
  ⟨false, strL "/wiki/", strL "en.wikipedia.org", false, fun _ => none, fun _ => false⟩

/-- A section body holding two sibling `noprint` divs. -/
def noprintDoc : DNode :=
  DNode.elem "body" []
    (listToForest
      [DNode.elem "div" [("class", strL "noprint")] DNodeList.nil,
       DNode.elem "div" [("class", strL "noprint")] DNodeList.nil])

set_option maxRecDepth 100000 in
/-- C7: the rewriter is not idempotent.  On a body with two adjacent
`noprint` divs, the first application deletes only the first div — deleting
`nodes[0]` of the live `getElementsByClassName` collection shifts the second
div to index 0 while the loop moves on to index 1 — so the output still
contains a `noprint` div; the second application deletes it and produces an
empty output, which differs byte-for-byte from the first. -/
theorem transformSection_not_idempotent :
    (transformSection plainCtx noprintDoc).html = strL "<div class=\"noprint\"></div>" ∧
    (transformSection plainCtx (transformSection plainCtx noprintDoc).root).html = strL "" ∧
    (transformSection plainCtx (transformSection plainCtx noprintDoc).root).html ≠
      (transformSection plainCtx noprintDoc).html := by
  refine ⟨by rfl, by rfl, by decide⟩

/-- Result of the media-handling portion of the section transform: the tree,
the enqueued downloads, and whether the pass was unwound by the uncaught
`decodeURI` URIError. -/
structure MediaPhaseResult where
  root : DNode
  queue : List (List Char)
  crashed : Bool

/-- The media-handling portion of the section transform the `nopic` claim is
about: the image pass followed by the `nopic` map-removal block of
`applyOtherTreatments`; returns the tree, the enqueued downloads, and
whether the pass was unwound by the uncaught `decodeURI` URIError — the
process then exits 42 and the map block never runs. -/
def nopicMediaPhase (ctx : RewriteCtx) (doc : DNode) : MediaPhaseResult :=
  let st := treatMediaElementsForSection ctx doc
  if st.crashed then ⟨st.root, st.queue, true⟩
  else ⟨deleteMapsIfNopic ctx st.root, st.queue, false⟩

/-- A run context with `nopic` set. -/
def nopicCtx : RewriteCtx :=
  ⟨true, strL "/wiki/", strL "en.wikipedia.org", false, fun _ => none, fun _ => false⟩

/-- A section body holding two adjacent plain (non-math) images. -/
def twoImgsDoc : DNode :=
  DNode.elem "body" []
    (listToForest
      [DNode.elem "img" [("src", strL "https://up.wm.org/c/A.png/120px-A.png")] DNodeList.nil,
       DNode.elem "img" [("src", strL "https://up.wm.org/c/B.png/120px-B.png")] DNodeList.nil])

set_option maxRecDepth 100000 in
/-- C6 counterexample: with `nopic`, a body with two adjacent non-math images
keeps the second one untouched — deleting `imgs[0]` of the live collection
shifts the second image to index 0 while the loop moves to index 1 — so the
rewriter does not delete every non-math image. -/
theorem treatMedia_nopic_counterexample :
    (nopicMediaPhase nopicCtx twoImgsDoc).root =
      DNode.elem "body" []
        (listToForest
          [DNode.elem "img" [("src", strL "https://up.wm.org/c/B.png/120px-B.png")]
            DNodeList.nil]) ∧
    collectTag "img" (nopicMediaPhase nopicCtx twoImgsDoc).root = [[0]] ∧
    (nopicMediaPhase nopicCtx twoImgsDoc).queue = [] ∧
    (nopicMediaPhase nopicCtx twoImgsDoc).crashed = false := by
  refine ⟨by rfl, by rfl, by rfl, by rfl⟩

set_option maxRecDepth 100000 in
/-- C6 (amended): with `nopic`, for a section body holding one image
(optionally wrapped in a link) and one map, the image is kept iff its class
contains `mwe-math-fallback-image-inline` or its `typeof` equals
`mw:Extension/math` AND it has a truthy `src` not starting with
`./Special:FilePath/` AND `getMediaBase` yields a local media path for the
resolved source; a kept image has its `src` rewritten to that local path and
is enqueued once, and its enclosing link is unwrapped unless the link target
is mirrored; when `getMediaBase` returns `undefined` the image is deleted;
when `decodeURI` throws inside `getMediaBase` (malformed percent-encoding in
the resolved source) the exception unwinds the pass after the unwrap and the
run crashes with exit 42 — the image is neither rewritten nor deleted and
the map block never runs; otherwise every other visited image is deleted and
the map is deleted.  (With several images or maps, the live-collection
deletion skips the element after each deleted one, as the counterexample
shows.) -/
theorem treatMedia_nopic_spec (wp wh : List Char) (al : Bool)
    (nsf : List Char → Option Bool) (aids : List Char → Bool)
    (cls tv srcv href : List Char) (wrap : Bool) :
    nopicMediaPhase ⟨true, wp, wh, al, nsf, aids⟩
      (DNode.elem "body" []
        (DNodeList.cons
          (if wrap then
            DNode.elem "a" [("href", href)]
              (DNodeList.cons
                (DNode.elem "img" [("class", cls), ("typeof", tv), ("src", srcv)]
                  DNodeList.nil)
                DNodeList.nil)
          else
            DNode.elem "img" [("class", cls), ("typeof", tv), ("src", srcv)] DNodeList.nil)
          (DNodeList.cons (DNode.elem "map" [] DNodeList.nil) DNodeList.nil))) =
      (match imgMathKeep true [("class", cls), ("typeof", tv), ("src", srcv)] &&
          imgSrcOk [("class", cls), ("typeof", tv), ("src", srcv)],
          getMediaUrl (getFullUrl wh srcv) with
       | true, none =>
         ⟨DNode.elem "body" []
           (DNodeList.cons
             (if wrap && imgKeepLink ⟨true, wp, wh, al, nsf, aids⟩ href then
               DNode.elem "a" [("href", href)]
                 (DNodeList.cons
                   (DNode.elem "img" [("class", cls), ("typeof", tv), ("src", srcv)]
                     DNodeList.nil)
                   DNodeList.nil)
             else
               DNode.elem "img" [("class", cls), ("typeof", tv), ("src", srcv)]
                 DNodeList.nil)
             (DNodeList.cons (DNode.elem "map" [] DNodeList.nil) DNodeList.nil)),
          [], true⟩
       | true, some (some ns) =>
         ⟨DNode.elem "body" []
           (DNodeList.cons
             (if wrap && imgKeepLink ⟨true, wp, wh, al, nsf, aids⟩ href then
               DNode.elem "a" [("href", href)]
                 (DNodeList.cons
                   (DNode.elem "img" [("class", cls), ("typeof", tv), ("src", ns)]
                     DNodeList.nil)
                   DNodeList.nil)
             else
               DNode.elem "img" [("class", cls), ("typeof", tv), ("src", ns)] DNodeList.nil)
             DNodeList.nil),
          [getFullUrl wh srcv], false⟩
       | true, some none =>
         ⟨DNode.elem "body" []
           (if wrap && imgKeepLink ⟨true, wp, wh, al, nsf, aids⟩ href then
             DNodeList.cons (DNode.elem "a" [("href", href)] DNodeList.nil) DNodeList.nil
           else DNodeList.nil),
          [], false⟩
       | false, _ =>
         ⟨DNode.elem "body" []
           (if wrap then
             DNodeList.cons (DNode.elem "a" [("href", href)] DNodeList.nil) DNodeList.nil
           else DNodeList.nil),
          [], false⟩) := by
  cases hkeep : imgMathKeep true [("class", cls), ("typeof", tv), ("src", srcv)] &&
      imgSrcOk [("class", cls), ("typeof", tv), ("src", srcv)] with
  | false =>
    cases wrap with
    | false =>
      simp [nopicMediaPhase, treatMediaElementsForSection, imgLoopGo, processImg,
        deleteMapsIfNopic, deleteLoop, deleteLoopGo, collectTag, collectTagForest,
        nodeCount, nodeCountForest, getAt, setAt, removeAt, forestGet, forestSet,
        forestRemove, getAttr, setAttr, removeAttr, List.find?, hkeep]
    | true =>
      simp [nopicMediaPhase, treatMediaElementsForSection, imgLoopGo, processImg,
        deleteMapsIfNopic, deleteLoop, deleteLoopGo, collectTag, collectTagForest,
        nodeCount, nodeCountForest, getAt, setAt, removeAt, forestGet, forestSet,
        forestRemove, getAttr, setAttr, removeAttr, List.find?, hkeep]
  | true =>
    cases hns : getMediaUrl (getFullUrl wh srcv) with
    | none =>
      cases wrap with
      | false =>
        simp [nopicMediaPhase, treatMediaElementsForSection, imgLoopGo, processImg,
          deleteMapsIfNopic, deleteLoop, deleteLoopGo, collectTag, collectTagForest,
          nodeCount, nodeCountForest, getAt, setAt, removeAt, forestGet, forestSet,
          forestRemove, getAttr, setAttr, removeAttr, List.find?, hkeep, hns]
      | true =>
        cases hkl : imgKeepLink ⟨true, wp, wh, al, nsf, aids⟩ href with
        | false =>
          simp [nopicMediaPhase, treatMediaElementsForSection, imgLoopGo, processImg,
            deleteMapsIfNopic, deleteLoop, deleteLoopGo, collectTag, collectTagForest,
            nodeCount, nodeCountForest, getAt, setAt, removeAt, forestGet, forestSet,
            forestRemove, getAttr, setAttr, removeAttr, List.find?, hkeep, hns, hkl]
        | true =>
          simp [nopicMediaPhase, treatMediaElementsForSection, imgLoopGo, processImg,
            deleteMapsIfNopic, deleteLoop, deleteLoopGo, collectTag, collectTagForest,
            nodeCount, nodeCountForest, getAt, setAt, removeAt, forestGet, forestSet,
            forestRemove, getAttr, setAttr, removeAttr, List.find?, hkeep, hns, hkl]
    | some x =>
      cases x with
      | none =>
        cases wrap with
        | false =>
          simp [nopicMediaPhase, treatMediaElementsForSection, imgLoopGo, processImg,
            deleteMapsIfNopic, deleteLoop, deleteLoopGo, collectTag, collectTagForest,
            nodeCount, nodeCountForest, getAt, setAt, removeAt, forestGet, forestSet,
            forestRemove, getAttr, setAttr, removeAttr, List.find?, hkeep, hns]
        | true =>
          cases hkl : imgKeepLink ⟨true, wp, wh, al, nsf, aids⟩ href with
          | false =>
            simp [nopicMediaPhase, treatMediaElementsForSection, imgLoopGo, processImg,
              deleteMapsIfNopic, deleteLoop, deleteLoopGo, collectTag, collectTagForest,
              nodeCount, nodeCountForest, getAt, setAt, removeAt, forestGet, forestSet,
              forestRemove, getAttr, setAttr, removeAttr, List.find?, hkeep, hns, hkl]
          | true =>
            simp [nopicMediaPhase, treatMediaElementsForSection, imgLoopGo, processImg,
              deleteMapsIfNopic, deleteLoop, deleteLoopGo, collectTag, collectTagForest,
              nodeCount, nodeCountForest, getAt, setAt, removeAt, forestGet, forestSet,
              forestRemove, getAttr, setAttr, removeAttr, List.find?, hkeep, hns, hkl]
      | some ns =>
        cases wrap with
        | false =>
          simp [nopicMediaPhase, treatMediaElementsForSection, imgLoopGo, processImg,
            deleteMapsIfNopic, deleteLoop, deleteLoopGo, collectTag, collectTagForest,
            nodeCount, nodeCountForest, getAt, setAt, removeAt, forestGet, forestSet,
            forestRemove, getAttr, setAttr, removeAttr, List.find?, hkeep, hns]
        | true =>
          cases hkl : imgKeepLink ⟨true, wp, wh, al, nsf, aids⟩ href with
          | false =>
            simp [nopicMediaPhase, treatMediaElementsForSection, imgLoopGo, processImg,
              deleteMapsIfNopic, deleteLoop, deleteLoopGo, collectTag, collectTagForest,
              nodeCount, nodeCountForest, getAt, setAt, removeAt, forestGet, forestSet,
              forestRemove, getAttr, setAttr, removeAttr, List.find?, hkeep, hns, hkl]
          | true =>
            simp [nopicMediaPhase, treatMediaElementsForSection, imgLoopGo, processImg,
              deleteMapsIfNopic, deleteLoop, deleteLoopGo, collectTag, collectTagForest,
              nodeCount, nodeCountForest, getAt, setAt, removeAt, forestGet, forestSet,
              forestRemove, getAttr, setAttr, removeAttr, List.find?, hkeep, hns, hkl]

set_option maxRecDepth 100000 in
/-- The exception path at a concrete input: a math-class image whose source
`http://h/%` (malformed percent-encoding) passes the keep condition, so the
pass reaches `getMediaUrl`, where `decodeURI` throws; the run crashes — the
image is neither rewritten nor deleted and the map survives, since the map
block never runs. -/
theorem nopicMediaPhase_crash_example :
    (nopicMediaPhase nopicCtx
      (DNode.elem "body" []
        (DNodeList.cons
          (DNode.elem "img" [("class", strL "mwe-math-fallback-image-inline"),
            ("src", strL "http://h/%")] DNodeList.nil)
          (DNodeList.cons (DNode.elem "map" [] DNodeList.nil) DNodeList.nil)))).crashed
      = true ∧
    collectTag "img" (nopicMediaPhase nopicCtx
      (DNode.elem "body" []
        (DNodeList.cons
          (DNode.elem "img" [("class", strL "mwe-math-fallback-image-inline"),
            ("src", strL "http://h/%")] DNodeList.nil)
          (DNodeList.cons (DNode.elem "map" [] DNodeList.nil) DNodeList.nil)))).root
      = [[0]] ∧
    collectTag "map" (nopicMediaPhase nopicCtx
      (DNode.elem "body" []
        (DNodeList.cons
          (DNode.elem "img" [("class", strL "mwe-math-fallback-image-inline"),
            ("src", strL "http://h/%")] DNodeList.nil)
          (DNodeList.cons (DNode.elem "map" [] DNodeList.nil) DNodeList.nil)))).root
      = [[1]] := by
  refine ⟨by rfl, by rfl, by rfl⟩
